import Mathlib

/-!
# Session synchronisation engine of `MycroftController`

A shallow embedding of `import/mycroftcontroller.cpp`: the two message handlers
`onMainSocketMessageReceived` and `onGuiSocketMessageReceived`, the session
store `m_skillData`, the delegate registry `m_guis`, the active-skill list
`m_activeSkillsModel`, `status()`, the two send functions and the slots of the
main socket, followed by theorems about the bounds checks, the cascade on
removal, the duplicate suppression, the session-data bag, the noise filter, the
routing of the main channel and the reconnect timer.

Conventions.
* C++ `int` is `Int`; `QJsonValue::toInt` only ever yields 32-bit values and the
  arithmetic of the handler (`rowCount() - position - 1`, `position + i`) stays
  inside that range, so no wrap-around has to be modelled.
* `QHash<QString, T>` is an association list that holds at most one entry per
  key; iteration order is the list order.
* Signals and log lines are returned as a list of `Effect`s next to the state.
-/

namespace Mycroft

/-! ## JSON documents (`QJsonDocument`, `QJsonValue`) -/

/-- A decoded JSON value. `undefined` is what `operator[]` yields for a missing
key, for a non-object, and for the null document produced by text that does not
parse. `double n` stands for a whole-number JSON number. -/
inductive QJsonValue where
  | undefined : QJsonValue
  | null : QJsonValue
  | bool (b : Bool) : QJsonValue
  | double (n : Int) : QJsonValue
  | string (s : String) : QJsonValue
  | array (items : List QJsonValue) : QJsonValue
  | object (members : List (String × QJsonValue)) : QJsonValue

/-- The `QVariant` produced by `QJsonValue::toVariant()`. -/
abbrev QVariant := QJsonValue

/-- The `QVariantMap` type: the key/value pairs of a JSON object. -/
abbrev QVariantMap := List (String × QVariant)

/-- The access `doc[key]`: the member of an object, `undefined` otherwise. -/
def QJsonValue.value (v : QJsonValue) (key : String) : QJsonValue :=
  match v with
  | .object members => (members.lookup key).getD .undefined
  | _ => .undefined

/-- The conversion `QJsonValue::toString()`: the string, or the empty string for every other
kind of value. -/
def QJsonValue.toString (v : QJsonValue) : String :=
  match v with
  | .string s => s
  | _ => ""

/-- The conversion `QJsonValue::toInt()`: the number when it fits an `int`, otherwise the
default value 0. -/
def QJsonValue.toInt (v : QJsonValue) : Int :=
  match v with
  | .double n => if -2147483648 ≤ n ∧ n ≤ 2147483647 then n else 0
  | _ => 0

/-- The conversion `QJsonValue::toVariant().toMap()`: the members of an object, the empty map
otherwise. -/
def QJsonValue.toMap (v : QJsonValue) : QVariantMap :=
  match v with
  | .object members => members
  | _ => []

/-- The test `QString::startsWith`. -/
def startsWith (s pre : String) : Bool :=
  pre.data.isPrefixOf s.data

/-! ## Hashes (`QHash<QString, T>`) -/

/-- The container `QHash<QString, T>`. -/
abbrev QHash (α : Type) := List (String × α)

/-- The test `QHash::contains`. -/
def QHash.contains {α : Type} (h : QHash α) (key : String) : Bool :=
  h.any (fun e => e.1 == key)

/-- The lookup `QHash::value(key)` as an option (`none` is the default-constructed value). -/
def QHash.find {α : Type} (h : QHash α) (key : String) : Option α :=
  h.lookup key

/-- The assignment `h[key] = v` / `QHash::insert`: replaces the value of an existing key, adds
the entry otherwise. -/
def QHash.insert {α : Type} : QHash α → String → α → QHash α
  | [], key, v => [(key, v)]
  | (k, w) :: t, key, v =>
    if k = key then (key, v) :: t else (k, w) :: QHash.insert t key v

/-- The removal `QHash::erase(find(key))`: drops the entry of `key`, if any. -/
def QHash.erase {α : Type} (h : QHash α) (key : String) : QHash α :=
  h.filter (fun e => !(e.1 == key))

/-- The keys of a hash. -/
def QHash.keys {α : Type} (h : QHash α) : List String :=
  h.map Prod.fst

/-! ## Session data (`QQmlPropertyMap`) -/

/-- The type `QQmlPropertyMap`: the keys it lists, in the order of their
creation, each with its value. A key cannot be removed from the map: its value
can only be replaced, or cleared to an invalid `QVariant`, which is
`QJsonValue.undefined` here. -/
abbrev QQmlPropertyMap := QHash QVariant

/-- The test `QVariant::isValid()`. -/
def isValid (v : QVariant) : Bool :=
  match v with
  | .undefined => false
  | _ => true

/-- The call `QQmlPropertyMap::clear(key)`: the value of the key becomes an
invalid `QVariant`; the key stays listed, and a key that was not listed yet is
created. -/
def QQmlPropertyMap.clear (m : QQmlPropertyMap) (key : String) : QQmlPropertyMap :=
  QHash.insert m key .undefined

/-- The call `QQmlPropertyMap::value(key)`: the value of the key, an invalid
`QVariant` when no value has been set for it or when it has been cleared. -/
def QQmlPropertyMap.value (m : QQmlPropertyMap) (key : String) : QVariant :=
  (QHash.find m key).getD .undefined

/-! ## Controller state -/

/-- A `QQuickItem*` handed out by the rendering host. -/
abbrev QQuickItem := Nat

/-- The enum `QAbstractSocket::SocketState`. -/
inductive SocketState where
  | UnconnectedState
  | HostLookupState
  | ConnectingState
  | ConnectedState
  | BoundState
  | ListeningState
  | ClosingState
  deriving DecidableEq, Repr

/-- The members of `MycroftController`. -/
structure MycroftController where
  /-- the value of `m_appSettingObj->webSocketAddress()` -/
  webSocketAddress : String
  m_guiId : String
  m_mainWebSocket : SocketState
  m_guiWebSocket : SocketState
  /-- the value of `m_reconnectTimer.isActive()` -/
  m_reconnectTimer : Bool
  m_isListening : Bool
  m_isSpeaking : Bool
  m_currentSkill : String
  /-- the item registered with `registerGui`, `none` while it is null -/
  m_gui : Option QQuickItem
  m_skillData : QHash QQmlPropertyMap
  m_guis : QHash (QHash (Option QQuickItem))
  /-- the rows of `m_activeSkillsModel` -/
  m_activeSkillsModel : List String

/-- The enum `QAbstractSocket::SocketError`. -/
inductive SocketError where
  | ConnectionRefusedError
  | RemoteHostClosedError
  | HostNotFoundError
  | SocketAccessError
  | SocketResourceError
  | SocketTimeoutError
  | DatagramTooLargeError
  | NetworkError
  | AddressInUseError
  | SocketAddressNotAvailableError
  | UnsupportedSocketOperationError
  | UnfinishedSocketOperationError
  | ProxyAuthenticationRequiredError
  | SslHandshakeFailedError
  | ProxyConnectionRefusedError
  | ProxyConnectionClosedError
  | ProxyConnectionTimeoutError
  | ProxyNotFoundError
  | ProxyProtocolError
  | OperationError
  | SslInternalError
  | SslInvalidUserDataError
  | TemporaryError
  | UnknownSocketError
  deriving DecidableEq, Repr

/-- Signals emitted, lines logged and calls made on the sockets and the process
launcher by a handler, in order. -/
inductive Effect where
  | qWarning (text : String)
  | qDebug (text : String)
  | socketStatusChanged
  | intentRecevied (type : String) (data : QVariantMap)
  | isListeningChanged
  | isSpeakingChanged
  | notUnderstood
  | currentSkillChanged
  | fallbackTextRecieved (skill : String) (data : QVariantMap)
  | stopped
  | openGuiSocket (url : String) (port : Int)
  | skillGuiCreated (skillId : String) (guiItem : Option QQuickItem)
  | eventTriggered (eventId : String) (parameters : QVariantMap)
  | qDebugError (error : SocketError)
  | startDetached (program : String)
  | mainSendTextMessage (frame : QJsonValue)
  | guiSendTextMessage (frame : QJsonValue)

/-- What the rendering host answers when a component is created for a URL:
`errors` is `guiComponent.errors()` (`isError()` when non-empty) and `guiItem`
is `qobject_cast<QQuickItem *>(guiObject)`, `none` for a null pointer. -/
structure QQmlComponent where
  errors : List String
  guiItem : Option QQuickItem

/-! ## The active-skill model -/

/-- Modelled from the spec: the mutators of `ActiveSkillsModel`
(`activeskillsmodel.cpp` is not among the sources). The handler only calls
them; each takes the rows before the call and returns the rows after it. -/
structure ActiveSkillsModel where
  /-- the call `insertSkill(position, skillId)` -/
  insertSkill : Int → String → List String → List String
  /-- the call `removeRows(row, count)` -/
  removeRows : Int → Int → List String → List String
  /-- the call `moveRows(QModelIndex(), sourceRow, count, QModelIndex(), destinationChild)` -/
  moveRows : Int → Int → Int → List String → List String

/-- Modelled from the spec: `ActiveSkillsModel::rowCount()`, the length of the
ordered sequence of skill identifiers. -/
def rowCount (rows : List String) : Int :=
  rows.length

/-- Modelled from the spec: `ActiveSkillsModel::data(index(row, 0)).toString()`,
the identifier at `row`, the empty string for an invalid index. -/
def data (rows : List String) (row : Int) : String :=
  if 0 ≤ row then rows.getD row.toNat "" else ""

/-- Modelled from the spec: `ActiveSkillsModel::insertSkill`, "insert at
`position`" when `0 ≤ position ≤ length`, no mutation otherwise. -/
def insertSkill (position : Int) (skillId : String) (rows : List String) : List String :=
  if 0 ≤ position ∧ position ≤ rowCount rows then
    rows.take position.toNat ++ skillId :: rows.drop position.toNat
  else rows

/-- Modelled from the spec: `ActiveSkillsModel::removeRows`, "remove that
contiguous range", no mutation when the bounds are invalid. -/
def removeRows (row count : Int) (rows : List String) : List String :=
  if 0 ≤ row ∧ 0 ≤ count ∧ row + count ≤ rowCount rows then
    rows.take row.toNat ++ rows.drop (row.toNat + count.toNat)
  else rows

/-- Modelled from the spec: `ActiveSkillsModel::moveRows`, "move that contiguous
range to `to`" for `from`, `to` within `[0, length-1]` and a count within
`[1, length-from]`: the block is taken out and put back so that it starts at
index `to` of the remaining rows (at their end when fewer remain); no mutation
when the bounds are invalid. -/
def moveRows (sourceRow count destinationChild : Int) (rows : List String) : List String :=
  if 0 ≤ sourceRow ∧ sourceRow ≤ rowCount rows - 1 ∧
      0 ≤ destinationChild ∧ destinationChild ≤ rowCount rows - 1 ∧
      1 ≤ count ∧ count ≤ rowCount rows - sourceRow then
    let block := (rows.drop sourceRow.toNat).take count.toNat
    let rest := rows.take sourceRow.toNat ++ rows.drop (sourceRow.toNat + count.toNat)
    rest.take destinationChild.toNat ++ block ++ rest.drop destinationChild.toNat
  else rows

/-- Modelled from the spec: the active-skill model of §4.4. -/
def specModel : ActiveSkillsModel :=
  { insertSkill := insertSkill, removeRows := removeRows, moveRows := moveRows }

/-! ## `MycroftController::sessionDataForSkill` (lines 122-134) -/

/-- The call `sessionDataForSkill(skillId)`: the map stored for the skill; when there is
none, a new empty map is stored under `skillId` and returned. -/
def sessionDataForSkill (c : MycroftController) (skillId : String) :
    QQmlPropertyMap × MycroftController :=
  if c.m_skillData.contains skillId then
    ((c.m_skillData.find skillId).getD [], c)
  else
    ([], { c with m_skillData := c.m_skillData.insert skillId [] })

/-- The map behind the pointer `m_skillData[skillId]` after it was mutated
through that pointer. -/
def storeSessionData (c : MycroftController) (skillId : String) (map : QQmlPropertyMap) :
    MycroftController :=
  { c with m_skillData := c.m_skillData.insert skillId map }

/-! ## `MycroftController::onGuiSocketMessageReceived` (lines 218-411) -/

/-- The `mycroft.session.set` branch (lines 232-240). -/
def sessionSet (c : MycroftController) (doc : QJsonValue) : MycroftController × List Effect :=
  let sessionData := (doc.value "data").toMap
  let skillId := (doc.value "namespace").toString
  let r := sessionDataForSkill c skillId
  let map := sessionData.foldl (fun m kv => QHash.insert m kv.1 kv.2) r.1
  (storeSessionData r.2 skillId map, [])

/-- The `mycroft.session.delete` branch (lines 243-256). -/
def sessionDelete (c : MycroftController) (doc : QJsonValue) : MycroftController × List Effect :=
  let skillId := (doc.value "namespace").toString
  let property := (doc.value "property").toString
  if skillId = "" then (c, [.qWarning "No skill id provided"])
  else if property = "" then (c, [.qWarning "No property provided"])
  else
    let r := sessionDataForSkill c skillId
    (storeSessionData r.2 skillId (QQmlPropertyMap.clear r.1 property), [])

/-- The `mycroft.gui.show` branch (lines 261-317). `host guiUrl` is the
component the rendering host creates for the URL. -/
def guiShow (host : String → QQmlComponent) (c : MycroftController) (doc : QJsonValue) :
    MycroftController × List Effect :=
  match c.m_gui with
  | none => (c, [])
  | some _ =>
    let skillId := (doc.value "namespace").toString
    let guiUrl := (doc.value "gui_url").toString
    if skillId = "" then
      (c, [.qWarning "Invalid mycroft.gui.show arrived with empty namespace"])
    else if guiUrl = "" then
      (c, [.qWarning "Invalid mycroft.gui.show arrived with empty gui_url"])
    else
      match c.m_guis.find? (fun e => QHash.contains e.2 guiUrl) with
      | some e =>
        (c, [.skillGuiCreated skillId ((QHash.find e.2 guiUrl).getD none)])
      | none =>
        let guiComponent := host guiUrl
        if guiComponent.errors ≠ [] then
          (c, guiComponent.errors.map Effect.qWarning)
        else
          match guiComponent.guiItem with
          | none => (c, [.qWarning "ERROR: QML gui not a Mycroft.Delegate instance"])
          | some guiItem =>
            let c1 := (sessionDataForSkill c skillId).2
            let guisOfSkill := (QHash.find c1.m_guis skillId).getD []
            ({ c1 with
                m_guis := QHash.insert c1.m_guis skillId
                  (QHash.insert guisOfSkill guiUrl (some guiItem)) },
             [.qWarning ("AAAAAAA " ++ skillId), .skillGuiCreated skillId (some guiItem)])

/-- The duplicate search of the insert branch (lines 334-339). -/
def searchDuplicate (rows : List String) (skillId : String) : Bool :=
  (List.range (rowCount rows).toNat).foldl
    (fun (found : Bool) (i : Nat) => if data rows (i : Int) = skillId then true else found)
    false

/-- The `mycroft.session.insert` branch (lines 324-343), entered for the
namespace `mycroft.system.active_skills`. -/
def sessionInsert (model : ActiveSkillsModel) (c : MycroftController) (doc : QJsonValue) :
    MycroftController × List Effect :=
  let position := ((doc.value "data").value "position").toInt
  let skillId := ((doc.value "data").value "skill_id").toString
  if position < 0 ∨ position > rowCount c.m_activeSkillsModel then
    (c, [.qWarning "Invalid position"])
  else if searchDuplicate c.m_activeSkillsModel skillId then (c, [])
  else
    ({ c with m_activeSkillsModel :=
        model.insertSkill position skillId c.m_activeSkillsModel }, [])

/-- One pass of the cascade loop (lines 361-379): the session data and the guis
of the skill are erased. -/
def dropSkill (c : MycroftController) (skillId : String) : MycroftController :=
  { c with
    m_skillData := QHash.erase c.m_skillData skillId
    m_guis := QHash.erase c.m_guis skillId }

/-- The cascade loop (lines 359-380) over `i = 0 .. itemsNumber - 1`. -/
def cascade (c : MycroftController) (position itemsNumber : Int) : MycroftController :=
  (List.range itemsNumber.toNat).foldl
    (fun (s : MycroftController) (i : Nat) =>
      dropSkill s (data s.m_activeSkillsModel (position + (i : Int)))) c

/-- The `mycroft.session.remove` branch (lines 346-381), entered for the
namespace `mycroft.system.active_skills`. -/
def sessionRemove (model : ActiveSkillsModel) (c : MycroftController) (doc : QJsonValue) :
    MycroftController × List Effect :=
  let position := ((doc.value "data").value "position").toInt
  let itemsNumber := ((doc.value "data").value "items_number").toInt
  if position < 0 ∨ position > rowCount c.m_activeSkillsModel - 1 then
    (c, [.qWarning "Invalid position"])
  else if itemsNumber < 0 ∨ itemsNumber > rowCount c.m_activeSkillsModel - position - 1 then
    (c, [.qWarning "Invalid items_number"])
  else
    let c1 := cascade c position itemsNumber
    ({ c1 with m_activeSkillsModel :=
        model.removeRows position itemsNumber c1.m_activeSkillsModel }, [])

/-- The `mycroft.session.move` branch (lines 384-401). -/
def sessionMove (model : ActiveSkillsModel) (c : MycroftController) (doc : QJsonValue) :
    MycroftController × List Effect :=
  let src := ((doc.value "data").value "from").toInt
  let dst := ((doc.value "data").value "to").toInt
  let itemsNumber := ((doc.value "data").value "items_number").toInt
  if src < 0 ∨ src > rowCount c.m_activeSkillsModel - 1 then
    (c, [.qWarning "Invalid from position"])
  else if dst < 0 ∨ dst > rowCount c.m_activeSkillsModel - 1 then
    (c, [.qWarning "Invalid to position"])
  else if itemsNumber ≤ 0 ∨ itemsNumber > rowCount c.m_activeSkillsModel - src then
    (c, [.qWarning "Invalid items_number"])
  else
    ({ c with m_activeSkillsModel :=
        model.moveRows src itemsNumber dst c.m_activeSkillsModel }, [])

/-- The routing of `onGuiSocketMessageReceived` after the noise filter: the
chain of `if (type == ...) else if ...` of lines 232-410. -/
def routeGuiMessage (model : ActiveSkillsModel) (host : String → QQmlComponent)
    (c : MycroftController) (type : String) (doc : QJsonValue) :
    MycroftController × List Effect :=
  if type = "mycroft.session.set" then sessionSet c doc
  else if type = "mycroft.session.delete" then sessionDelete c doc
  else if type = "mycroft.gui.show" then guiShow host c doc
  else if type = "mycroft.session.insert" ∧
      ((doc.value "data").value "namespace").toString = "mycroft.system.active_skills" then
    sessionInsert model c doc
  else if type = "mycroft.session.remove" ∧
      ((doc.value "data").value "namespace").toString = "mycroft.system.active_skills" then
    sessionRemove model c doc
  else if type = "mycroft.session.move" then sessionMove model c doc
  else if type = "mycroft.events.triggered" then
    (c, [.eventTriggered (doc.value "event_id").toString (doc.value "parameters").toMap])
  else (c, [])

/-- The handler `onGuiSocketMessageReceived(message)`, where `doc` is
`QJsonDocument::fromJson(message.toLatin1())`. Returns the controller after the
handler and what it logged and emitted. -/
def onGuiSocketMessageReceived (model : ActiveSkillsModel) (host : String → QQmlComponent)
    (c : MycroftController) (message : String) (doc : QJsonValue) :
    MycroftController × List Effect :=
  let type := (doc.value "type").toString
  if startsWith type "enclosure" || startsWith type "mycroft-date" then
    (c, [.qWarning message])
  else
    let r := routeGuiMessage model host c type doc
    (r.1, .qWarning message :: .qDebug ("gui message type " ++ type) :: r.2)

/-- A sequence of presentation-channel frames handled one after the other;
each frame is the text and the document decoded from it. -/
def runGui (model : ActiveSkillsModel) (host : String → QQmlComponent)
    (c : MycroftController) (frames : List (String × QJsonValue)) : MycroftController :=
  frames.foldl (fun s f => (onGuiSocketMessageReceived model host s f.1 f.2).1) c

/-! ## Messages -/

/-- The document is a `mycroft.session.insert` for the reserved namespace
`mycroft.system.active_skills` carrying `position` and `skill_id`. -/
def IsSessionInsert (doc : QJsonValue) (position : Int) (skillId : String) : Prop :=
  (doc.value "type").toString = "mycroft.session.insert" ∧
  ((doc.value "data").value "namespace").toString = "mycroft.system.active_skills" ∧
  ((doc.value "data").value "position").toInt = position ∧
  ((doc.value "data").value "skill_id").toString = skillId

instance (doc : QJsonValue) (position : Int) (skillId : String) :
    Decidable (IsSessionInsert doc position skillId) := by
  unfold IsSessionInsert; infer_instance

/-- The document is a `mycroft.session.remove` for the reserved namespace
`mycroft.system.active_skills` carrying `position` and `items_number`. -/
def IsSessionRemove (doc : QJsonValue) (position itemsNumber : Int) : Prop :=
  (doc.value "type").toString = "mycroft.session.remove" ∧
  ((doc.value "data").value "namespace").toString = "mycroft.system.active_skills" ∧
  ((doc.value "data").value "position").toInt = position ∧
  ((doc.value "data").value "items_number").toInt = itemsNumber

instance (doc : QJsonValue) (position itemsNumber : Int) :
    Decidable (IsSessionRemove doc position itemsNumber) := by
  unfold IsSessionRemove; infer_instance

/-- The document is a `mycroft.session.move` carrying `from`, `items_number`
and `to`; its `data.namespace` is left free. -/
def IsSessionMove (doc : QJsonValue) (src itemsNumber dst : Int) : Prop :=
  (doc.value "type").toString = "mycroft.session.move" ∧
  ((doc.value "data").value "from").toInt = src ∧
  ((doc.value "data").value "items_number").toInt = itemsNumber ∧
  ((doc.value "data").value "to").toInt = dst

instance (doc : QJsonValue) (src itemsNumber dst : Int) :
    Decidable (IsSessionMove doc src itemsNumber dst) := by
  unfold IsSessionMove; infer_instance

/-- The document is a `mycroft.session.delete` carrying `namespace` and
`property` (either may be absent, which reads as the empty string). -/
def IsSessionDelete (doc : QJsonValue) (skillId property : String) : Prop :=
  (doc.value "type").toString = "mycroft.session.delete" ∧
  (doc.value "namespace").toString = skillId ∧
  (doc.value "property").toString = property

instance (doc : QJsonValue) (skillId property : String) :
    Decidable (IsSessionDelete doc skillId property) := by
  unfold IsSessionDelete; infer_instance

/-- The document `{"type":"mycroft.session.insert","data":{"namespace":ns,"position":p,"skill_id":s}}` -/
def insertMessage (ns : String) (position : Int) (skillId : String) : QJsonValue :=
  .object [("type", .string "mycroft.session.insert"),
    ("data", .object [("namespace", .string ns), ("position", .double position),
      ("skill_id", .string skillId)])]

/-- The document `{"type":"mycroft.session.remove","data":{"namespace":ns,"position":p,"items_number":n}}` -/
def removeMessage (ns : String) (position itemsNumber : Int) : QJsonValue :=
  .object [("type", .string "mycroft.session.remove"),
    ("data", .object [("namespace", .string ns), ("position", .double position),
      ("items_number", .double itemsNumber)])]

/-- The document `{"type":"mycroft.session.move","data":{"namespace":ns,"from":f,"items_number":n,"to":t}}` -/
def moveMessage (ns : String) (src itemsNumber dst : Int) : QJsonValue :=
  .object [("type", .string "mycroft.session.move"),
    ("data", .object [("namespace", .string ns), ("from", .double src),
      ("items_number", .double itemsNumber), ("to", .double dst)])]

/-- The document `{"type":"mycroft.session.set","namespace":skillId,"data":{...}}` -/
def setMessage (skillId : String) (sessionData : QVariantMap) : QJsonValue :=
  .object [("type", .string "mycroft.session.set"), ("namespace", .string skillId),
    ("data", .object sessionData)]

/-- The document `{"type":"mycroft.session.delete","namespace":skillId,"property":property}` -/
def deleteMessage (skillId property : String) : QJsonValue :=
  .object [("type", .string "mycroft.session.delete"), ("namespace", .string skillId),
    ("property", .string property)]

/-- One step of a `session.set` / `session.delete` sequence for a skill. -/
inductive SessionOp where
  | set (sessionData : QVariantMap) : SessionOp
  | delete (property : String) : SessionOp

/-- The frame that carries a session operation for `skillId`. -/
def SessionOp.frame (skillId : String) : SessionOp → String × QJsonValue
  | .set sessionData => ("", setMessage skillId sessionData)
  | .delete property => ("", deleteMessage skillId property)

/-- The key was set by some `session.set` of the sequence. -/
def WasSet (ops : List SessionOp) (key : String) : Prop :=
  ∃ before sessionData after, ops = before ++ SessionOp.set sessionData :: after ∧
    key ∈ QHash.keys sessionData

/-- The key was set by some `session.set` of the sequence that no
`session.delete` of the key follows. -/
def SetAndNotDeleted (ops : List SessionOp) (key : String) : Prop :=
  ∃ before sessionData after, ops = before ++ SessionOp.set sessionData :: after ∧
    key ∈ QHash.keys sessionData ∧ ∀ op ∈ after, op ≠ SessionOp.delete key

/-- A controller right after construction, with the given active skills. -/
def exampleController (rows : List String) : MycroftController :=
  { webSocketAddress := "ws://0.0.0.0", m_guiId := "gui-1",
    m_mainWebSocket := .ConnectedState, m_guiWebSocket := .ConnectedState,
    m_reconnectTimer := false, m_isListening := false, m_isSpeaking := false,
    m_currentSkill := "", m_gui := none, m_skillData := [], m_guis := [],
    m_activeSkillsModel := rows }

/-- A controller with active skills `weather` and `clock`, session data for
both and a gui registered for `weather`. -/
def busyController : MycroftController :=
  { exampleController ["weather", "clock", "news"] with
    m_skillData := [("weather", [("temp", .string "72F")]), ("clock", [])]
    m_guis := [("weather", [("file:///weather.qml", some 7)])] }

/-- A rendering host that produces no item. -/
def noHost : String → QQmlComponent :=
  fun _ => { errors := [], guiItem := none }

/-! ## Kinds of effects -/

/-- The effect is a line written with `qWarning()` or `qDebug()`. -/
def Effect.isLog : Effect → Bool
  | .qWarning _ => true
  | .qDebug _ => true
  | .qDebugError _ => true
  | _ => false

/-- The effect is the signal `intentRecevied`. -/
def Effect.isIntentRecevied : Effect → Bool
  | .intentRecevied _ _ => true
  | _ => false

/-- The effect is the signal `skillGuiCreated`. -/
def Effect.isSkillGuiCreated : Effect → Bool
  | .skillGuiCreated _ _ => true
  | _ => false

/-- The effect is the call `m_guiWebSocket.open(url)`. -/
def Effect.isOpenGuiSocket : Effect → Bool
  | .openGuiSocket _ _ => true
  | _ => false

/-- The effect is a `sendTextMessage` on one of the two sockets. -/
def Effect.isSendTextMessage : Effect → Bool
  | .mainSendTextMessage _ => true
  | .guiSendTextMessage _ => true
  | _ => false

/-! ## `MycroftController::status` (lines 461-482) -/

/-- The enum `MycroftController::Status`. -/
inductive Status where
  | Connecting
  | Open
  | Closing
  | Closed
  deriving DecidableEq, Repr

/-- The function `status()`. -/
def status (c : MycroftController) : Status :=
  if c.m_reconnectTimer then .Connecting
  else
    match c.m_mainWebSocket with
    | .ConnectingState => .Connecting
    | .BoundState => .Connecting
    | .HostLookupState => .Connecting
    | .UnconnectedState => .Closed
    | .ConnectedState => .Open
    | .ClosingState => .Closing
    | _ => .Connecting

/-! ## Connection events (lines 57-61 and 96-109) -/

/-- The slot connected to `QWebSocket::connected` of the main socket
(lines 58-61). -/
def onMainSocketConnected (c : MycroftController) : MycroftController × List Effect :=
  ({ c with m_reconnectTimer := false }, [.socketStatusChanged])

/-- The slot connected to `QWebSocket::error` of the main socket by `start()`
(lines 97-109). -/
def onMainSocketError (c : MycroftController) (error : SocketError) :
    MycroftController × List Effect :=
  if error ≠ .HostNotFoundError ∧ error ≠ .ConnectionRefusedError then
    (c, [.qDebugError error,
         .qWarning ("Mycroft is running but the connection failed for some reason. " ++
           "Kill Mycroft manually.")])
  else
    ({ c with m_reconnectTimer := true },
     [.qDebugError error, .startDetached "mycroft-gui-core-loader", .socketStatusChanged])

/-! ## `MycroftController::sendRequest`, `sendGuiRequest` (lines 413-441) -/

/-- The envelope `root` built by both send functions: `root["type"] = type` and
`root["data"] = QJsonObject::fromVariantMap(data)`. -/
def requestEnvelope (type : String) (payload : QVariantMap) : QJsonValue :=
  .object [("type", .string type), ("data", .object payload)]

/-- The function `sendRequest(type, data)`; the frame sent is given by the
document that `doc.toJson()` serialises. -/
def sendRequest (c : MycroftController) (type : String) (payload : QVariantMap) :
    MycroftController × List Effect :=
  if c.m_mainWebSocket ≠ .ConnectedState then
    (c, [.qWarning "mycroft connection not open!"])
  else
    (c, [.mainSendTextMessage (requestEnvelope type payload)])

/-- The function `sendGuiRequest(type, data)`. -/
def sendGuiRequest (c : MycroftController) (type : String) (payload : QVariantMap) :
    MycroftController × List Effect :=
  if c.m_guiWebSocket ≠ .ConnectedState then
    (c, [.qWarning "mycroft connection not open!"])
  else
    (c, [.guiSendTextMessage (requestEnvelope type payload)])

/-! ## `MycroftController::onMainSocketMessageReceived` (lines 136-216) -/

/-- The `mycroft.gui.port` branch (lines 198-215). The URL text is
`QString("%1:%2/gui").arg(address).arg(port)` for an address without place
markers. -/
def guiPort (c : MycroftController) (doc : QJsonValue) : MycroftController × List Effect :=
  let port := ((doc.value "data").value "port").toInt
  let guiId := ((doc.value "data").value "gui_id").toString
  if port < 0 then (c, [.qWarning "Invalid port from mycroft.gui.port"])
  else if guiId ≠ c.m_guiId then (c, [.qWarning "Wrong guiId from mycroft.gui.port"])
  else (c, [.openGuiSocket (c.webSocketAddress ++ ":" ++ toString port ++ "/gui") port])

/-- The routing of `onMainSocketMessageReceived` after the noise filter and the
signal `intentRecevied`: lines 156-215 (the text-to-speech call of the Android
build is left out). -/
def routeMainMessage (c : MycroftController) (type : String) (doc : QJsonValue) :
    MycroftController × List Effect :=
  if type = "intent_failure" then
    ({ c with m_isListening := false }, [.isListeningChanged, .notUnderstood])
  else if type = "recognizer_loop:audio_output_start" then
    ({ c with m_isSpeaking := true }, [.isSpeakingChanged])
  else if type = "recognizer_loop:audio_output_end" then
    ({ c with m_isSpeaking := false }, [.isSpeakingChanged])
  else if type = "recognizer_loop:record_begin" then
    ({ c with m_isListening := true }, [.isListeningChanged])
  else if type = "recognizer_loop:record_end" then
    ({ c with m_isListening := false }, [.isListeningChanged])
  else if type = "mycroft.speech.recognition.unknown" then
    (c, [.notUnderstood])
  else if type = "mycroft.skill.handler.start" then
    ({ c with m_currentSkill := ((doc.value "data").value "name").toString },
     [.qDebug ("Current skill: " ++ ((doc.value "data").value "name").toString),
      .currentSkillChanged])
  else if type = "mycroft.skill.handler.complete" then
    ({ c with m_currentSkill := "" }, [.currentSkillChanged])
  else if type = "speak" then
    (c, [.fallbackTextRecieved c.m_currentSkill (doc.value "data").toMap])
  else if type = "mycroft.stop.handled" ∨ type = "mycroft.stop" then
    (c, [.stopped])
  else if type = "mycroft.gui.port" then guiPort c doc
  else (c, [])

/-- The handler `onMainSocketMessageReceived(message)`, where `doc` is
`QJsonDocument::fromJson(message.toLatin1())`. Returns the controller after the
handler and what it logged, emitted and opened. -/
def onMainSocketMessageReceived (c : MycroftController) (_message : String)
    (doc : QJsonValue) : MycroftController × List Effect :=
  let type := (doc.value "type").toString
  if startsWith type "enclosure" || startsWith type "mycroft-date" then
    (c, [])
  else
    let r := routeMainMessage c type doc
    (r.1, .qDebug ("type " ++ type) :: .intentRecevied type (doc.value "data").toMap :: r.2)

/-- A sequence of main-channel frames handled one after the other. -/
def runMain (c : MycroftController) (frames : List (String × QJsonValue)) :
    MycroftController :=
  frames.foldl (fun s f => (onMainSocketMessageReceived s f.1 f.2).1) c

/-! ## More messages -/

/-- The document is a `mycroft.gui.port` carrying `port` and `gui_id`. -/
def IsGuiPort (doc : QJsonValue) (port : Int) (guiId : String) : Prop :=
  (doc.value "type").toString = "mycroft.gui.port" ∧
  ((doc.value "data").value "port").toInt = port ∧
  ((doc.value "data").value "gui_id").toString = guiId

instance (doc : QJsonValue) (port : Int) (guiId : String) :
    Decidable (IsGuiPort doc port guiId) := by
  unfold IsGuiPort; infer_instance

/-- The document is a `mycroft.gui.show` carrying `namespace` and `gui_url`. -/
def IsGuiShow (doc : QJsonValue) (skillId guiUrl : String) : Prop :=
  (doc.value "type").toString = "mycroft.gui.show" ∧
  (doc.value "namespace").toString = skillId ∧
  (doc.value "gui_url").toString = guiUrl

instance (doc : QJsonValue) (skillId guiUrl : String) :
    Decidable (IsGuiShow doc skillId guiUrl) := by
  unfold IsGuiShow; infer_instance

/-- The type of the document starts with one of the two noise prefixes. -/
def IsNoise (doc : QJsonValue) : Prop :=
  startsWith (doc.value "type").toString "enclosure" = true ∨
  startsWith (doc.value "type").toString "mycroft-date" = true

instance (doc : QJsonValue) : Decidable (IsNoise doc) := by
  unfold IsNoise; infer_instance

/-- The document `{"type":"mycroft.gui.port","data":{"port":p,"gui_id":g}}` -/
def guiPortMessage (port : Int) (guiId : String) : QJsonValue :=
  .object [("type", .string "mycroft.gui.port"),
    ("data", .object [("port", .double port), ("gui_id", .string guiId)])]

/-- The document `{"type":"mycroft.gui.show","namespace":s,"gui_url":u}` -/
def showMessage (skillId guiUrl : String) : QJsonValue :=
  .object [("type", .string "mycroft.gui.show"), ("namespace", .string skillId),
    ("gui_url", .string guiUrl)]

/-- The document `{"type":t,"data":{...}}` -/
def typedMessage (type : String) (payload : QVariantMap) : QJsonValue :=
  .object [("type", .string type), ("data", .object payload)]

/-- A rendering host whose component reports an error. -/
def failingHost : String → QQmlComponent :=
  fun _ => { errors := ["file not found"], guiItem := none }

/-! ## Current-skill tracking, in the words of the routing table -/

/-- The document is a `mycroft.skill.handler.start`. -/
def isHandlerStart (doc : QJsonValue) : Bool :=
  (doc.value "type").toString == "mycroft.skill.handler.start"

/-- The document is a `mycroft.skill.handler.complete`. -/
def isHandlerComplete (doc : QJsonValue) : Bool :=
  (doc.value "type").toString == "mycroft.skill.handler.complete"

/-- The `name` payloads of the `mycroft.skill.handler.start` messages of a
sequence that no `mycroft.skill.handler.complete` follows, oldest first. -/
def uncompletedStarts : List QJsonValue → List String
  | [] => []
  | doc :: later =>
    if isHandlerStart doc && later.all (fun d => !isHandlerComplete d) then
      ((doc.value "data").value "name").toString :: uncompletedStarts later
    else uncompletedStarts later

/-- The current skill as the routing table words it: the `name` payload of the
most recent `mycroft.skill.handler.start` that has not been followed by a
`mycroft.skill.handler.complete`, the empty string if there is none. -/
def specCurrentSkill (docs : List QJsonValue) : String :=
  (uncompletedStarts docs).getLast?.getD ""

/-! ## Theorems: removal from the active-skill list -/

/-- A `mycroft.session.remove` for the reserved namespace is routed to the remove
branch. -/
theorem gui_remove_state (model : ActiveSkillsModel) (host : String → QQmlComponent)
    (c : MycroftController) (message : String) (doc : QJsonValue)
    (htype : (doc.value "type").toString = "mycroft.session.remove")
    (hns : ((doc.value "data").value "namespace").toString = "mycroft.system.active_skills") :
    (onGuiSocketMessageReceived model host c message doc).1 = (sessionRemove model c doc).1 := by
  simp [onGuiSocketMessageReceived, routeGuiMessage, htype, hns, startsWith]

/-- An erased key is no longer in the hash. -/
theorem QHash.contains_erase_self {α : Type} (h : QHash α) (key : String) :
    QHash.contains (QHash.erase h key) key = false := by
  simp [QHash.contains, QHash.erase]

/-- Erasing never brings a key into the hash. -/
theorem QHash.contains_erase_of_not {α : Type} (h : QHash α) (key other : String)
    (hno : QHash.contains h key = false) :
    QHash.contains (QHash.erase h other) key = false := by
  simp only [QHash.contains, QHash.erase, List.any_eq_false, List.mem_filter] at hno ⊢
  intro e he
  exact hno e he.1

/-- The cascade loop leaves the rows alone, keeps absent keys absent and erases
the skill read at every step. -/
theorem cascade_loop (rows : List String) (position : Int) (steps : List Nat) :
    ∀ s : MycroftController, s.m_activeSkillsModel = rows →
      (steps.foldl (fun (s : MycroftController) (i : Nat) =>
        dropSkill s (data s.m_activeSkillsModel (position + (i : Int)))) s).m_activeSkillsModel
          = rows ∧
      ∀ key, ((QHash.contains s.m_skillData key = false ∧
            QHash.contains s.m_guis key = false) ∨
          ∃ i ∈ steps, key = data rows (position + (i : Int))) →
        QHash.contains (steps.foldl (fun (s : MycroftController) (i : Nat) =>
          dropSkill s (data s.m_activeSkillsModel (position + (i : Int)))) s).m_skillData key
            = false ∧
        QHash.contains (steps.foldl (fun (s : MycroftController) (i : Nat) =>
          dropSkill s (data s.m_activeSkillsModel (position + (i : Int)))) s).m_guis key
            = false := by
  induction steps with
  | nil =>
    intro s hs
    refine ⟨hs, ?_⟩
    intro key hkey
    rcases hkey with h | ⟨i, hi, _⟩
    · exact h
    · simp at hi
  | cons j rest ih =>
    intro s hs
    have hrows : (dropSkill s (data s.m_activeSkillsModel (position + j))).m_activeSkillsModel = rows := hs
    obtain ⟨h1, h2⟩ := ih _ hrows
    refine ⟨h1, ?_⟩
    intro key hkey
    apply h2
    rcases hkey with h | ⟨i, hi, hk⟩
    · left
      exact ⟨QHash.contains_erase_of_not _ _ _ h.1, QHash.contains_erase_of_not _ _ _ h.2⟩
    · rcases List.mem_cons.1 hi with rfl | hi
      · left
        rw [hk, hs]
        exact ⟨QHash.contains_erase_self _ _, QHash.contains_erase_self _ _⟩
      · right
        exact ⟨i, hi, hk⟩

/-- C1 (defect in the code): on the list `["weather"]` a `mycroft.session.remove`
for the reserved namespace with position 0 and items_number 1 is refused by the
check `itemsNumber > rowCount() - position - 1` of line 354, whatever the model
does: the list is still `["weather"]` and `Invalid items_number` is logged. -/
theorem remove_last_skill_refused (model : ActiveSkillsModel)
    (host : String → QQmlComponent) :
    (onGuiSocketMessageReceived model host (exampleController ["weather"]) ""
      (removeMessage "mycroft.system.active_skills" 0 1)).1.m_activeSkillsModel
        = ["weather"] ∧
    (onGuiSocketMessageReceived model host (exampleController ["weather"]) ""
      (removeMessage "mycroft.system.active_skills" 0 1)).2
        = [.qWarning "", .qDebug "gui message type mycroft.session.remove",
           .qWarning "Invalid items_number"] :=
  ⟨rfl, rfl⟩

/-- C2: a `mycroft.session.remove` for the reserved namespace with
`position < 0`, `position + itemsNumber > length` or `itemsNumber < 0` is
rejected: the controller after the handler is the controller before it, so the
active-skill list, the session store and the delegate registry are unchanged. -/
theorem remove_out_of_bounds_rejected (model : ActiveSkillsModel)
    (host : String → QQmlComponent) (c : MycroftController) (message : String)
    (doc : QJsonValue) (position itemsNumber : Int)
    (hmsg : IsSessionRemove doc position itemsNumber)
    (hbad : position < 0 ∨ position + itemsNumber > rowCount c.m_activeSkillsModel ∨
      itemsNumber < 0) :
    (onGuiSocketMessageReceived model host c message doc).1 = c := by
  obtain ⟨htype, hns, hpos, hnum⟩ := hmsg
  rw [gui_remove_state model host c message doc htype hns]
  unfold sessionRemove
  simp only [hpos, hnum]
  split_ifs with h1 h2
  · rfl
  · rfl
  · exfalso
    push_neg at h1 h2
    omega

/-- Witness of C2: removing 2 rows at position 2 of a three-row list. -/
theorem remove_out_of_bounds_rejected_witness :
    IsSessionRemove (removeMessage "mycroft.system.active_skills" 2 2) 2 2 ∧
    ((2 : Int) < 0 ∨ (2 : Int) + 2 > rowCount busyController.m_activeSkillsModel ∨
      (2 : Int) < 0) ∧
    (onGuiSocketMessageReceived specModel noHost busyController ""
      (removeMessage "mycroft.system.active_skills" 2 2)).1 = busyController :=
  ⟨by decide, by decide,
   remove_out_of_bounds_rejected specModel noHost busyController ""
     (removeMessage "mycroft.system.active_skills" 2 2) 2 2 (by decide) (by decide)⟩

/-- C3: after a `mycroft.session.remove` that passes the checks of the handler,
neither the session store `m_skillData` nor the delegate registry `m_guis` has
an entry for a skill identifier that stood at an index `k` with
`position ≤ k < position + itemsNumber` before the message. -/
theorem remove_cascades (model : ActiveSkillsModel) (host : String → QQmlComponent)
    (c : MycroftController) (message : String) (doc : QJsonValue) (position itemsNumber : Int)
    (hmsg : IsSessionRemove doc position itemsNumber)
    (hpos : 0 ≤ position ∧ position ≤ rowCount c.m_activeSkillsModel - 1)
    (hnum : 0 ≤ itemsNumber ∧ itemsNumber ≤ rowCount c.m_activeSkillsModel - position - 1)
    (k : Nat) (skillId : String) (hlow : position ≤ k) (hhigh : (k : Int) < position + itemsNumber)
    (hk : c.m_activeSkillsModel[k]? = some skillId) :
    QHash.contains (onGuiSocketMessageReceived model host c message doc).1.m_skillData skillId
      = false ∧
    QHash.contains (onGuiSocketMessageReceived model host c message doc).1.m_guis skillId
      = false := by
  obtain ⟨htype, hns, hp, hn⟩ := hmsg
  rw [gui_remove_state model host c message doc htype hns]
  unfold sessionRemove
  simp only [hp, hn]
  have g1 : ¬ (position < 0 ∨ position > rowCount c.m_activeSkillsModel - 1) := by omega
  have g2 : ¬ (itemsNumber < 0 ∨ itemsNumber > rowCount c.m_activeSkillsModel - position - 1) := by
    omega
  rw [if_neg g1, if_neg g2]
  have hloop := (cascade_loop c.m_activeSkillsModel position (List.range itemsNumber.toNat) c rfl).2
    skillId
  apply hloop
  right
  refine ⟨k - position.toNat, ?_, ?_⟩
  · rw [List.mem_range]; omega
  · have hidx : position + ((k - position.toNat : Nat) : Int) = (k : Int) := by omega
    rw [hidx]
    simp [data, List.getD, hk]

/-- Witness of C3: removing `weather` (row 0) from `weather, clock, news`. -/
theorem remove_cascades_witness :
    IsSessionRemove (removeMessage "mycroft.system.active_skills" 0 1) 0 1 ∧
    busyController.m_activeSkillsModel[0]? = some "weather" ∧
    QHash.contains busyController.m_skillData "weather" = true ∧
    QHash.contains busyController.m_guis "weather" = true ∧
    QHash.contains (onGuiSocketMessageReceived specModel noHost busyController ""
      (removeMessage "mycroft.system.active_skills" 0 1)).1.m_skillData "weather" = false ∧
    QHash.contains (onGuiSocketMessageReceived specModel noHost busyController ""
      (removeMessage "mycroft.system.active_skills" 0 1)).1.m_guis "weather" = false :=
  ⟨by decide, by decide, by decide, by decide,
   remove_cascades specModel noHost busyController ""
     (removeMessage "mycroft.system.active_skills" 0 1) 0 1 (by decide) (by decide)
     (by decide) 0 "weather" (by decide) (by decide) (by decide)⟩

/-! ## Theorems: the modelled active-skill operations -/

/-- A `mycroft.session.move` is routed to the move branch, whatever its
`data.namespace`. -/
theorem gui_move_state (model : ActiveSkillsModel) (host : String → QQmlComponent)
    (c : MycroftController) (message : String) (doc : QJsonValue)
    (htype : (doc.value "type").toString = "mycroft.session.move") :
    (onGuiSocketMessageReceived model host c message doc).1 = (sessionMove model c doc).1 := by
  simp [onGuiSocketMessageReceived, routeGuiMessage, htype, startsWith]

/-- The modelled `insertSkill` puts the identifier between the first `position`
rows and the others. -/
theorem insertSkill_eq (position : Int) (skillId : String) (rows : List String)
    (h : 0 ≤ position ∧ position ≤ rowCount rows) :
    insertSkill position skillId rows
      = rows.take position.toNat ++ skillId :: rows.drop position.toNat := by
  unfold insertSkill
  rw [if_pos h]

/-- Rows with an identifier inserted are a permutation of the identifier followed
by the rows. -/
theorem insertSkill_perm (position : Int) (skillId : String) (rows : List String)
    (h : 0 ≤ position ∧ position ≤ rowCount rows) :
    (insertSkill position skillId rows).Perm (skillId :: rows) := by
  rw [insertSkill_eq position skillId rows h]
  have h1 := @List.perm_middle _ skillId (rows.take position.toNat) (rows.drop position.toNat)
  rwa [List.take_append_drop] at h1

/-- The modelled `removeRows` leaves a sublist of the rows. -/
theorem removeRows_sublist (row count : Int) (rows : List String) :
    (removeRows row count rows).Sublist rows := by
  unfold removeRows
  split_ifs with h
  · have h1 : (rows.take row.toNat ++ rows.drop (row.toNat + count.toNat)).Sublist
        (rows.take row.toNat ++ rows.drop row.toNat) := by
      apply List.Sublist.append_left
      have hdrop : rows.drop (row.toNat + count.toNat) = (rows.drop row.toNat).drop count.toNat := by
        simp [List.drop_drop, Nat.add_comm]
      rw [hdrop]
      exact List.drop_sublist _ _
    rwa [List.take_append_drop] at h1
  · exact List.Sublist.refl rows

/-- Taking a block out of a list and putting it back anywhere among the other
rows gives a permutation of the list. -/
theorem block_move_perm (rows : List String) (s n d : Nat) :
    (((rows.take s ++ rows.drop (s + n)).take d ++ (rows.drop s).take n) ++
      (rows.take s ++ rows.drop (s + n)).drop d).Perm rows := by
  have hrest : ((rows.take s ++ rows.drop (s + n)).take d ++
      (rows.take s ++ rows.drop (s + n)).drop d) = rows.take s ++ rows.drop (s + n) :=
    List.take_append_drop _ _
  have hrows : rows.take s ++ ((rows.drop s).take n ++ rows.drop (s + n)) = rows := by
    have : rows.drop (s + n) = (rows.drop s).drop n := by
      simp [List.drop_drop, Nat.add_comm]
    rw [this, List.take_append_drop, List.take_append_drop]
  calc (((rows.take s ++ rows.drop (s + n)).take d ++ (rows.drop s).take n) ++
        (rows.take s ++ rows.drop (s + n)).drop d).Perm
        ((rows.drop s).take n ++ ((rows.take s ++ rows.drop (s + n)).take d ++
          (rows.take s ++ rows.drop (s + n)).drop d)) := by
          rw [List.append_assoc]
          exact List.perm_append_comm.trans (by
            rw [List.append_assoc]
            exact List.Perm.append_left _ List.perm_append_comm)
    _ = (rows.drop s).take n ++ (rows.take s ++ rows.drop (s + n)) := by rw [hrest]
    _ |>.Perm (rows.take s ++ ((rows.drop s).take n ++ rows.drop (s + n))) := by
          rw [← List.append_assoc, ← List.append_assoc]
          exact List.Perm.append_right _ List.perm_append_comm
    _ = rows := hrows

/-- The modelled `moveRows` permutes the rows. -/
theorem moveRows_perm (src count dst : Int) (rows : List String) :
    (moveRows src count dst rows).Perm rows := by
  unfold moveRows
  split_ifs with h
  · exact block_move_perm rows src.toNat count.toNat dst.toNat
  · exact List.Perm.refl rows

/-! ## Theorems: insertion into the active-skill list -/

/-- A `mycroft.session.insert` for the reserved namespace is routed to the insert
branch. -/
theorem gui_insert_state (model : ActiveSkillsModel) (host : String → QQmlComponent)
    (c : MycroftController) (message : String) (doc : QJsonValue)
    (htype : (doc.value "type").toString = "mycroft.session.insert")
    (hns : ((doc.value "data").value "namespace").toString = "mycroft.system.active_skills") :
    (onGuiSocketMessageReceived model host c message doc).1 = (sessionInsert model c doc).1 := by
  simp [onGuiSocketMessageReceived, routeGuiMessage, htype, hns, startsWith]

/-- The flag of the duplicate search after `n` rounds. -/
theorem searchDuplicate_rounds (rows : List String) (skillId : String) (n : Nat) :
    (List.range n).foldl
        (fun (found : Bool) (i : Nat) => if data rows (i : Int) = skillId then true else found)
        false
      = true ↔ ∃ i : Nat, i < n ∧ data rows i = skillId := by
  induction n with
  | zero => simp
  | succ n ih =>
    rw [List.range_succ, List.foldl_append]
    simp only [List.foldl_cons, List.foldl_nil]
    by_cases h : data rows n = skillId
    · simp only [h, if_true, true_iff]
      exact ⟨n, Nat.lt_succ_self n, h⟩
    · simp only [h, if_false, ih]
      constructor
      · rintro ⟨i, hi, hd⟩
        exact ⟨i, Nat.lt_succ_of_lt hi, hd⟩
      · rintro ⟨i, hi, hd⟩
        rcases Nat.lt_succ_iff_lt_or_eq.1 hi with hlt | rfl
        · exact ⟨i, hlt, hd⟩
        · exact absurd hd h

/-- The duplicate search finds exactly the identifiers that are in the list. -/
theorem searchDuplicate_iff (rows : List String) (skillId : String) :
    searchDuplicate rows skillId = true ↔ skillId ∈ rows := by
  unfold searchDuplicate
  rw [searchDuplicate_rounds]
  simp only [rowCount, Int.toNat_ofNat]
  constructor
  · rintro ⟨i, hi, hd⟩
    have : rows[i]? = some skillId := by
      have h0 : (0 : Int) ≤ (i : Int) := Int.ofNat_nonneg i
      simp only [data, h0, if_true, Int.toNat_ofNat, List.getD_eq_getElem?_getD] at hd
      rw [List.getElem?_eq_getElem hi] at hd ⊢
      simpa using hd
    exact List.mem_iff_getElem?.2 ⟨i, this⟩
  · intro hmem
    obtain ⟨i, hi, hget⟩ := List.getElem_of_mem hmem
    refine ⟨i, hi, ?_⟩
    have h0 : (0 : Int) ≤ (i : Int) := Int.ofNat_nonneg i
    simp [data, h0, List.getD_eq_getElem?_getD, List.getElem?_eq_getElem hi, hget]

/-- C5: a `mycroft.session.insert` for the reserved namespace whose skill
identifier is already somewhere in the active-skill list leaves the list as it
was (same rows in the same order), for every position; and handling the same
message a second time gives the list obtained by handling it once. -/
theorem insert_present_unchanged (model : ActiveSkillsModel) (host : String → QQmlComponent)
    (c : MycroftController) (message : String) (doc : QJsonValue) (position : Int)
    (skillId : String) (hmsg : IsSessionInsert doc position skillId)
    (hmem : skillId ∈ c.m_activeSkillsModel) :
    (onGuiSocketMessageReceived model host c message doc).1.m_activeSkillsModel
      = c.m_activeSkillsModel ∧
    (onGuiSocketMessageReceived model host
      (onGuiSocketMessageReceived model host c message doc).1 message doc).1.m_activeSkillsModel
      = (onGuiSocketMessageReceived model host c message doc).1.m_activeSkillsModel := by
  obtain ⟨htype, hns, hpos, hid⟩ := hmsg
  have hsame : (onGuiSocketMessageReceived model host c message doc).1 = c := by
    rw [gui_insert_state model host c message doc htype hns]
    unfold sessionInsert
    simp only [hpos, hid, (searchDuplicate_iff c.m_activeSkillsModel skillId).2 hmem, if_true]
    split_ifs <;> rfl
  rw [hsame, hsame]
  exact ⟨rfl, rfl⟩

/-- Witness of C5: inserting `clock` again, at position 0. -/
theorem insert_present_unchanged_witness :
    IsSessionInsert (insertMessage "mycroft.system.active_skills" 0 "clock") 0 "clock" ∧
    "clock" ∈ busyController.m_activeSkillsModel ∧
    (onGuiSocketMessageReceived specModel noHost busyController ""
      (insertMessage "mycroft.system.active_skills" 0 "clock")).1.m_activeSkillsModel
      = busyController.m_activeSkillsModel ∧
    (onGuiSocketMessageReceived specModel noHost
      (onGuiSocketMessageReceived specModel noHost busyController ""
        (insertMessage "mycroft.system.active_skills" 0 "clock")).1 ""
      (insertMessage "mycroft.system.active_skills" 0 "clock")).1.m_activeSkillsModel
      = (onGuiSocketMessageReceived specModel noHost busyController ""
        (insertMessage "mycroft.system.active_skills" 0 "clock")).1.m_activeSkillsModel :=
  ⟨by decide, by decide,
   insert_present_unchanged specModel noHost busyController ""
     (insertMessage "mycroft.system.active_skills" 0 "clock") 0 "clock" (by decide)
     (by decide)⟩

/-- C6: for a `mycroft.session.insert` for the reserved namespace whose skill
identifier is not in the active-skill list: when `0 ≤ position ≤ length`, the
list after the handler (with the modelled `insertSkill`) is the first
`position` rows, the identifier, then the other rows, so it is one longer, has
the identifier at index `position` and gives back the old list when that index is
dropped; when `position < 0` or `position > length` the controller is unchanged,
whatever the model does. -/
theorem insert_absent_at_position (host : String → QQmlComponent) (c : MycroftController)
    (message : String) (doc : QJsonValue) (position : Int) (skillId : String)
    (hmsg : IsSessionInsert doc position skillId)
    (habs : skillId ∉ c.m_activeSkillsModel) :
    ((0 ≤ position ∧ position ≤ rowCount c.m_activeSkillsModel) →
      (onGuiSocketMessageReceived specModel host c message doc).1.m_activeSkillsModel
        = c.m_activeSkillsModel.take position.toNat
            ++ skillId :: c.m_activeSkillsModel.drop position.toNat ∧
      (onGuiSocketMessageReceived specModel host c message doc).1.m_activeSkillsModel.length
        = c.m_activeSkillsModel.length + 1 ∧
      (onGuiSocketMessageReceived specModel host c message doc).1.m_activeSkillsModel[position.toNat]?
        = some skillId ∧
      ((onGuiSocketMessageReceived specModel host c message doc).1.m_activeSkillsModel).eraseIdx
        position.toNat = c.m_activeSkillsModel) ∧
    ((position < 0 ∨ position > rowCount c.m_activeSkillsModel) →
      ∀ model : ActiveSkillsModel,
        (onGuiSocketMessageReceived model host c message doc).1 = c) := by
  obtain ⟨htype, hns, hpos, hid⟩ := hmsg
  have hnot : searchDuplicate c.m_activeSkillsModel skillId = false := by
    rw [Bool.eq_false_iff]
    intro h
    exact habs ((searchDuplicate_iff _ _).1 h)
  constructor
  · intro hvalid
    have hlen : position.toNat ≤ c.m_activeSkillsModel.length := by
      have := hvalid.2
      simp only [rowCount] at this
      omega
    have hres : (onGuiSocketMessageReceived specModel host c message doc).1.m_activeSkillsModel
        = c.m_activeSkillsModel.take position.toNat
            ++ skillId :: c.m_activeSkillsModel.drop position.toNat := by
      rw [gui_insert_state specModel host c message doc htype hns]
      unfold sessionInsert
      simp only [hpos, hid, hnot]
      have g : ¬ (position < 0 ∨ position > rowCount c.m_activeSkillsModel) := by omega
      rw [if_neg g]
      simp only [Bool.false_eq_true, if_false]
      exact insertSkill_eq position skillId _ hvalid
    have htake : (c.m_activeSkillsModel.take position.toNat).length = position.toNat := by
      rw [List.length_take]
      omega
    refine ⟨hres, ?_, ?_, ?_⟩
    · rw [hres, List.length_append, List.length_cons, htake, List.length_drop]
      omega
    · rw [hres, List.getElem?_append_right (by omega), htake]
      simp
    · rw [hres, List.eraseIdx_append_of_length_le (by omega), htake]
      simp
  · intro hbad model
    rw [gui_insert_state model host c message doc htype hns]
    unfold sessionInsert
    simp only [hpos]
    rw [if_pos hbad]

/-- Witness of C6: inserting `weather` at position 0 into the empty list yields
`["weather"]`. -/
theorem insert_absent_at_position_witness :
    IsSessionInsert (insertMessage "mycroft.system.active_skills" 0 "weather") 0 "weather" ∧
    "weather" ∉ (exampleController []).m_activeSkillsModel ∧
    (onGuiSocketMessageReceived specModel noHost (exampleController []) ""
      (insertMessage "mycroft.system.active_skills" 0 "weather")).1.m_activeSkillsModel
      = ["weather"] :=
  ⟨by decide, by decide,
   ((insert_absent_at_position noHost (exampleController []) ""
     (insertMessage "mycroft.system.active_skills" 0 "weather") 0 "weather" (by decide)
     (by decide)).1 (by decide)).1⟩

/-- C7: for a `mycroft.session.move` with `from`, `to` within `[0, length-1]`
and `items_number` within `[1, length-from]`, the list after the handler (with
the modelled `moveRows`) has the length of the list before, is a permutation of
it, and contains the moved block contiguously and in its old order, the other
rows keeping their order around it. -/
theorem move_permutes (host : String → QQmlComponent) (c : MycroftController)
    (message : String) (doc : QJsonValue) (src itemsNumber dst : Int)
    (hmsg : IsSessionMove doc src itemsNumber dst)
    (hsrc : 0 ≤ src ∧ src ≤ rowCount c.m_activeSkillsModel - 1)
    (hdst : 0 ≤ dst ∧ dst ≤ rowCount c.m_activeSkillsModel - 1)
    (hnum : 1 ≤ itemsNumber ∧ itemsNumber ≤ rowCount c.m_activeSkillsModel - src) :
    (onGuiSocketMessageReceived specModel host c message doc).1.m_activeSkillsModel.length
      = c.m_activeSkillsModel.length ∧
    ((onGuiSocketMessageReceived specModel host c message doc).1.m_activeSkillsModel).Perm
      c.m_activeSkillsModel ∧
    ∃ front back : List String,
      (onGuiSocketMessageReceived specModel host c message doc).1.m_activeSkillsModel
        = front ++ (c.m_activeSkillsModel.drop src.toNat).take itemsNumber.toNat ++ back ∧
      front ++ back = c.m_activeSkillsModel.take src.toNat
        ++ c.m_activeSkillsModel.drop (src.toNat + itemsNumber.toNat) := by
  obtain ⟨htype, hs, hn, hd⟩ := hmsg
  have hres : (onGuiSocketMessageReceived specModel host c message doc).1.m_activeSkillsModel
      = moveRows src itemsNumber dst c.m_activeSkillsModel := by
    rw [gui_move_state specModel host c message doc htype]
    unfold sessionMove
    simp only [hs, hn, hd]
    have g1 : ¬ (src < 0 ∨ src > rowCount c.m_activeSkillsModel - 1) := by omega
    have g2 : ¬ (dst < 0 ∨ dst > rowCount c.m_activeSkillsModel - 1) := by omega
    have g3 : ¬ (itemsNumber ≤ 0 ∨ itemsNumber > rowCount c.m_activeSkillsModel - src) := by
      omega
    rw [if_neg g1, if_neg g2, if_neg g3]
    rfl
  have hperm := moveRows_perm src itemsNumber dst c.m_activeSkillsModel
  refine ⟨?_, ?_, ?_⟩
  · rw [hres]; exact hperm.length_eq
  · rw [hres]; exact hperm
  · rw [hres]
    unfold moveRows
    rw [if_pos ⟨hsrc.1, hsrc.2, hdst.1, hdst.2, hnum.1, hnum.2⟩]
    exact ⟨_, _, rfl, List.take_append_drop _ _⟩

/-- Witness of C7: moving the first two of three rows to index 1. -/
theorem move_permutes_witness :
    IsSessionMove (moveMessage "mycroft.system.active_skills" 0 2 1) 0 2 1 ∧
    (onGuiSocketMessageReceived specModel noHost busyController ""
      (moveMessage "mycroft.system.active_skills" 0 2 1)).1.m_activeSkillsModel
        = ["news", "weather", "clock"] ∧
    ((onGuiSocketMessageReceived specModel noHost busyController ""
      (moveMessage "mycroft.system.active_skills" 0 2 1)).1.m_activeSkillsModel).Perm
        busyController.m_activeSkillsModel :=
  ⟨by decide, by decide,
   (move_permutes noHost busyController ""
     (moveMessage "mycroft.system.active_skills" 0 2 1) 0 2 1 (by decide) (by decide)
     (by decide) (by decide)).2.1⟩

/-- C8 (defect in the code): a `mycroft.session.move` whose `data.namespace` is
`some.other.namespace` still reaches `moveRows` (line 384 has no namespace
test), and with the modelled `moveRows` the list `a, b, c` becomes `b, c, a`;
the sibling insert and remove messages for that namespace leave the list as it
was. -/
theorem move_ignores_namespace :
    (∀ (model : ActiveSkillsModel) (host : String → QQmlComponent),
      (onGuiSocketMessageReceived model host (exampleController ["a", "b", "c"]) ""
        (moveMessage "some.other.namespace" 0 1 2)).1.m_activeSkillsModel
        = model.moveRows 0 1 2 ["a", "b", "c"]) ∧
    (onGuiSocketMessageReceived specModel noHost (exampleController ["a", "b", "c"]) ""
      (moveMessage "some.other.namespace" 0 1 2)).1.m_activeSkillsModel = ["b", "c", "a"] ∧
    (onGuiSocketMessageReceived specModel noHost (exampleController ["a", "b", "c"]) ""
      (insertMessage "some.other.namespace" 0 "d")).1.m_activeSkillsModel = ["a", "b", "c"] ∧
    (onGuiSocketMessageReceived specModel noHost (exampleController ["a", "b", "c"]) ""
      (removeMessage "some.other.namespace" 0 1)).1.m_activeSkillsModel = ["a", "b", "c"] :=
  ⟨fun _ _ => rfl, by decide, by decide, by decide⟩


/-- The call of `sessionDataForSkill` does not touch the active-skill list. -/
theorem sessionDataForSkill_rows (c : MycroftController) (skillId : String) :
    (sessionDataForSkill c skillId).2.m_activeSkillsModel = c.m_activeSkillsModel := by
  unfold sessionDataForSkill
  split_ifs <;> rfl

/-- The `mycroft.session.set` branch does not touch the active-skill list. -/
theorem sessionSet_rows (c : MycroftController) (doc : QJsonValue) :
    (sessionSet c doc).1.m_activeSkillsModel = c.m_activeSkillsModel := by
  simp only [sessionSet, storeSessionData]
  exact sessionDataForSkill_rows c _

/-- The `mycroft.session.delete` branch does not touch the active-skill list. -/
theorem sessionDelete_rows (c : MycroftController) (doc : QJsonValue) :
    (sessionDelete c doc).1.m_activeSkillsModel = c.m_activeSkillsModel := by
  unfold sessionDelete
  dsimp only
  split_ifs
  · rfl
  · rfl
  · exact sessionDataForSkill_rows c _

/-- The `mycroft.gui.show` branch does not touch the active-skill list. -/
theorem guiShow_rows (host : String → QQmlComponent) (c : MycroftController)
    (doc : QJsonValue) :
    (guiShow host c doc).1.m_activeSkillsModel = c.m_activeSkillsModel := by
  unfold guiShow
  split
  · rfl
  · dsimp only
    split_ifs <;> (repeat' split) <;> first | rfl | exact sessionDataForSkill_rows c _

/-- The cascade loop does not touch the active-skill list. -/
theorem cascade_rows (c : MycroftController) (position itemsNumber : Int) :
    (cascade c position itemsNumber).m_activeSkillsModel = c.m_activeSkillsModel :=
  (cascade_loop c.m_activeSkillsModel position (List.range itemsNumber.toNat) c rfl).1

/-- With the modelled operations, one handled frame keeps the active-skill list
free of duplicates. -/
theorem gui_step_nodup (host : String → QQmlComponent) (c : MycroftController)
    (message : String) (doc : QJsonValue) (hc : c.m_activeSkillsModel.Nodup) :
    (onGuiSocketMessageReceived specModel host c message doc).1.m_activeSkillsModel.Nodup := by
  unfold onGuiSocketMessageReceived
  simp only
  split_ifs with hnoise
  · exact hc
  · simp only [routeGuiMessage]
    split_ifs with h1 h2 h3 h4 h5 h6 h7
    · rw [sessionSet_rows]; exact hc
    · rw [sessionDelete_rows]; exact hc
    · rw [guiShow_rows]; exact hc
    · unfold sessionInsert
      simp only
      split_ifs with g1 g2
      · exact hc
      · exact hc
      · have hvalid : 0 ≤ ((doc.value "data").value "position").toInt ∧
            ((doc.value "data").value "position").toInt ≤ rowCount c.m_activeSkillsModel := by
          omega
        have habs : ((doc.value "data").value "skill_id").toString ∉ c.m_activeSkillsModel :=
          fun hmem => g2 ((searchDuplicate_iff _ _).2 hmem)
        have hperm := insertSkill_perm _ ((doc.value "data").value "skill_id").toString
          c.m_activeSkillsModel hvalid
        exact hperm.nodup_iff.2 (List.nodup_cons.2 ⟨habs, hc⟩)
    · unfold sessionRemove
      simp only
      split_ifs with g1 g2
      · exact hc
      · exact hc
      · show (removeRows _ _ (cascade c _ _).m_activeSkillsModel).Nodup
        rw [cascade_rows]
        exact hc.sublist (removeRows_sublist _ _ _)
    · unfold sessionMove
      simp only
      split_ifs with g1 g2 g3
      · exact hc
      · exact hc
      · exact hc
      · exact (moveRows_perm _ _ _ _).nodup_iff.2 hc
    · exact hc
    · exact hc

/-- With the modelled operations, a sequence of handled frames keeps the
active-skill list free of duplicates. -/
theorem runGui_nodup (host : String → QQmlComponent) (frames : List (String × QJsonValue)) :
    ∀ c : MycroftController, c.m_activeSkillsModel.Nodup →
      (runGui specModel host c frames).m_activeSkillsModel.Nodup := by
  induction frames with
  | nil => intro c hc; exact hc
  | cons f rest ih =>
    intro c hc
    exact ih _ (gui_step_nodup host c f.1 f.2 hc)

/-- C4: starting from an empty active-skill list, after any sequence of
presentation-channel frames (with the modelled operations) no skill identifier
stands at two distinct positions of the list. -/
theorem active_skills_no_duplicates (host : String → QQmlComponent) (c : MycroftController)
    (frames : List (String × QJsonValue)) (hempty : c.m_activeSkillsModel = []) :
    ∀ i j : Nat, ∀ skillId : String,
      (runGui specModel host c frames).m_activeSkillsModel[i]? = some skillId →
      (runGui specModel host c frames).m_activeSkillsModel[j]? = some skillId → i = j := by
  have hnodup : (runGui specModel host c frames).m_activeSkillsModel.Nodup :=
    runGui_nodup host frames c (by rw [hempty]; exact List.nodup_nil)
  intro i j skillId hi hj
  obtain ⟨hi1, hi2⟩ := List.getElem?_eq_some_iff.1 hi
  obtain ⟨hj1, hj2⟩ := List.getElem?_eq_some_iff.1 hj
  exact (List.Nodup.getElem_inj_iff hnodup).1 (hi2.trans hj2.symm)

/-- Witness of C4: a sequence with a repeated insert, a move and a remove. -/
theorem active_skills_no_duplicates_witness :
    (exampleController []).m_activeSkillsModel = [] ∧
    (runGui specModel noHost (exampleController [])
      [("", insertMessage "mycroft.system.active_skills" 0 "weather"),
       ("", insertMessage "mycroft.system.active_skills" 0 "clock"),
       ("", insertMessage "mycroft.system.active_skills" 1 "weather"),
       ("", moveMessage "mycroft.system.active_skills" 0 1 1),
       ("", insertMessage "mycroft.system.active_skills" 2 "news"),
       ("", removeMessage "mycroft.system.active_skills" 0 1)]).m_activeSkillsModel
      = ["clock", "news"] ∧
    ∀ i j : Nat, ∀ skillId : String,
      (runGui specModel noHost (exampleController [])
        [("", insertMessage "mycroft.system.active_skills" 0 "weather"),
         ("", insertMessage "mycroft.system.active_skills" 0 "clock"),
         ("", insertMessage "mycroft.system.active_skills" 1 "weather"),
         ("", moveMessage "mycroft.system.active_skills" 0 1 1),
         ("", insertMessage "mycroft.system.active_skills" 2 "news"),
         ("", removeMessage "mycroft.system.active_skills" 0 1)]).m_activeSkillsModel[i]?
        = some skillId →
      (runGui specModel noHost (exampleController [])
        [("", insertMessage "mycroft.system.active_skills" 0 "weather"),
         ("", insertMessage "mycroft.system.active_skills" 0 "clock"),
         ("", insertMessage "mycroft.system.active_skills" 1 "weather"),
         ("", moveMessage "mycroft.system.active_skills" 0 1 1),
         ("", insertMessage "mycroft.system.active_skills" 2 "news"),
         ("", removeMessage "mycroft.system.active_skills" 0 1)]).m_activeSkillsModel[j]?
        = some skillId → i = j :=
  ⟨rfl, by decide, active_skills_no_duplicates noHost (exampleController []) _ rfl⟩

/-! ## Theorems: the session store -/

/-- A `mycroft.session.set` is routed to the set branch. -/
theorem gui_set_state (model : ActiveSkillsModel) (host : String → QQmlComponent)
    (c : MycroftController) (message : String) (doc : QJsonValue)
    (htype : (doc.value "type").toString = "mycroft.session.set") :
    (onGuiSocketMessageReceived model host c message doc).1 = (sessionSet c doc).1 := by
  simp [onGuiSocketMessageReceived, routeGuiMessage, htype, startsWith]

/-- A `mycroft.session.delete` is routed to the delete branch. -/
theorem gui_delete_state (model : ActiveSkillsModel) (host : String → QQmlComponent)
    (c : MycroftController) (message : String) (doc : QJsonValue)
    (htype : (doc.value "type").toString = "mycroft.session.delete") :
    (onGuiSocketMessageReceived model host c message doc).1 = (sessionDelete c doc).1 := by
  simp [onGuiSocketMessageReceived, routeGuiMessage, htype, startsWith]

/-- The keys after an insert are the inserted key and the keys before. -/
theorem QHash.mem_keys_insert {α : Type} (h : QHash α) (key : String) (v : α) (k : String) :
    k ∈ QHash.keys (QHash.insert h key v) ↔ k = key ∨ k ∈ QHash.keys h := by
  induction h with
  | nil => simp [QHash.insert, QHash.keys]
  | cons e t ih =>
    obtain ⟨k1, w⟩ := e
    by_cases hk : k1 = key
    · subst hk
      simp [QHash.insert, QHash.keys]
    · simp only [QHash.insert, hk, if_false]
      simp only [QHash.keys, List.map_cons, List.mem_cons] at ih ⊢
      rw [ih]
      tauto

/-- The keys after an erase are the keys before except the erased one. -/
theorem QHash.mem_keys_erase {α : Type} (h : QHash α) (key : String) (k : String) :
    k ∈ QHash.keys (QHash.erase h key) ↔ k ∈ QHash.keys h ∧ k ≠ key := by
  simp only [QHash.keys, QHash.erase, List.mem_map, List.mem_filter]
  constructor
  · rintro ⟨e, ⟨he, hne⟩, rfl⟩
    exact ⟨⟨e, he, rfl⟩, by simpa using hne⟩
  · rintro ⟨⟨e, he, rfl⟩, hne⟩
    exact ⟨e, ⟨he, by simpa using hne⟩, rfl⟩

/-- A key is in the hash exactly when `contains` says so. -/
theorem QHash.contains_iff_mem_keys {α : Type} (h : QHash α) (key : String) :
    QHash.contains h key = true ↔ key ∈ QHash.keys h := by
  simp only [QHash.contains, QHash.keys, List.any_eq_true, List.mem_map, beq_iff_eq]

/-- Looking up a key right after it was inserted gives the inserted value. -/
theorem QHash.find_insert_self {α : Type} (h : QHash α) (key : String) (v : α) :
    QHash.find (QHash.insert h key v) key = some v := by
  induction h with
  | nil => simp [QHash.insert, QHash.find, List.lookup]
  | cons e t ih =>
    obtain ⟨k1, w⟩ := e
    by_cases hk : k1 = key
    · simp [QHash.insert, QHash.find, List.lookup, hk]
    · have hne : (key == k1) = false := by
        rw [beq_eq_false_iff_ne]
        exact fun h => hk h.symm
      simp only [QHash.insert, hk, if_false, QHash.find, List.lookup, hne]
      exact ih

/-- Writing back the value a key already has changes nothing. -/
theorem QHash.insert_of_find {α : Type} (h : QHash α) (key : String) (v : α)
    (hfind : QHash.find h key = some v) : QHash.insert h key v = h := by
  induction h with
  | nil => simp [QHash.find] at hfind
  | cons e t ih =>
    obtain ⟨k1, w⟩ := e
    by_cases hk : k1 = key
    · subst hk
      simp only [QHash.find, List.lookup, beq_self_eq_true, Option.some.injEq] at hfind
      simp [QHash.insert, hfind]
    · have hne : (key == k1) = false := by
        rw [beq_eq_false_iff_ne]
        exact fun h => hk h.symm
      simp only [QHash.find, List.lookup, hne] at hfind
      simp only [QHash.insert, hk, if_false]
      rw [ih hfind]

/-- An absent key has no value. -/
theorem QHash.find_of_not_contains {α : Type} (h : QHash α) (key : String)
    (hno : QHash.contains h key = false) : QHash.find h key = none := by
  induction h with
  | nil => rfl
  | cons e t ih =>
    obtain ⟨k1, w⟩ := e
    simp only [QHash.contains, List.any_cons, Bool.or_eq_false_iff, beq_eq_false_iff_ne] at hno
    have hne : (key == k1) = false := by
      rw [beq_eq_false_iff_ne]
      exact fun h => hno.1 h.symm
    simp only [QHash.find, List.lookup, hne]
    exact ih (by simpa [QHash.contains] using hno.2)

/-- A present key has a value. -/
theorem QHash.find_of_contains {α : Type} (h : QHash α) (key : String)
    (hyes : QHash.contains h key = true) : ∃ v, QHash.find h key = some v := by
  induction h with
  | nil => simp [QHash.contains] at hyes
  | cons e t ih =>
    obtain ⟨k1, w⟩ := e
    by_cases hk : k1 = key
    · exact ⟨w, by simp [QHash.find, List.lookup, hk]⟩
    · have hne : (key == k1) = false := by
        rw [beq_eq_false_iff_ne]
        exact fun h => hk h.symm
      simp only [QHash.contains, List.any_cons, Bool.or_eq_true, beq_iff_eq] at hyes
      rcases hyes with h1 | h2
      · exact absurd h1 hk
      · obtain ⟨v, hv⟩ := ih (by simpa [QHash.contains] using h2)
        exact ⟨v, by simpa [QHash.find, List.lookup, hne] using hv⟩

/-- Inserting into an absent key appends the entry. -/
theorem QHash.insert_of_not_contains {α : Type} (h : QHash α) (key : String) (v : α)
    (hno : QHash.contains h key = false) : QHash.insert h key v = h ++ [(key, v)] := by
  induction h with
  | nil => rfl
  | cons e t ih =>
    obtain ⟨k1, w⟩ := e
    simp only [QHash.contains, List.any_cons, Bool.or_eq_false_iff, beq_eq_false_iff_ne] at hno
    simp only [QHash.insert, hno.1, if_false, List.cons_append]
    rw [ih (by simpa [QHash.contains] using hno.2)]


/-- The keys after a `session.set` loop are the keys of the payload and the keys
before. -/
theorem mem_keys_upsert (sessionData : QVariantMap) :
    ∀ (m : QQmlPropertyMap) (k : String),
      k ∈ QHash.keys (sessionData.foldl (fun m kv => QHash.insert m kv.1 kv.2) m) ↔
        k ∈ QHash.keys sessionData ∨ k ∈ QHash.keys m := by
  induction sessionData with
  | nil => intro m k; simp [QHash.keys]
  | cons kv rest ih =>
    intro m k
    rw [List.foldl_cons, ih, QHash.mem_keys_insert]
    simp only [QHash.keys, List.map_cons, List.mem_cons]
    tauto

/-- After a map was written back for a skill, `sessionDataForSkill` returns it. -/
theorem sessionDataForSkill_store (c : MycroftController) (skillId : String)
    (map : QQmlPropertyMap) :
    (sessionDataForSkill (storeSessionData c skillId map) skillId).1 = map := by
  have hcont : QHash.contains (QHash.insert c.m_skillData skillId map) skillId = true := by
    rw [QHash.contains_iff_mem_keys, QHash.mem_keys_insert]
    exact Or.inl rfl
  simp only [sessionDataForSkill, storeSessionData, hcont, if_true,
    QHash.find_insert_self, Option.getD_some]

/-- The session data of a skill after a `mycroft.session.set` for it. -/
theorem sessionSet_bag (c : MycroftController) (doc : QJsonValue) (skillId : String)
    (hns : (doc.value "namespace").toString = skillId) :
    (sessionDataForSkill (sessionSet c doc).1 skillId).1
      = (doc.value "data").toMap.foldl (fun m kv => QHash.insert m kv.1 kv.2)
          (sessionDataForSkill c skillId).1 := by
  simp only [sessionSet, hns]
  exact sessionDataForSkill_store _ _ _

/-- The session data of a skill after a `mycroft.session.delete` that names the
skill and a property. -/
theorem sessionDelete_bag (c : MycroftController) (doc : QJsonValue) (skillId : String)
    (property : String) (hns : (doc.value "namespace").toString = skillId)
    (hprop : (doc.value "property").toString = property)
    (h1 : skillId ≠ "") (h2 : property ≠ "") :
    (sessionDataForSkill (sessionDelete c doc).1 skillId).1
      = QQmlPropertyMap.clear (sessionDataForSkill c skillId).1 property := by
  simp only [sessionDelete, hns, hprop, h1, h2, if_false]
  exact sessionDataForSkill_store _ _ _

/-- A `mycroft.session.delete` without namespace or without property changes
nothing. -/
theorem sessionDelete_ignored (c : MycroftController) (doc : QJsonValue)
    (h : (doc.value "namespace").toString = "" ∨ (doc.value "property").toString = "") :
    (sessionDelete c doc).1 = c := by
  unfold sessionDelete
  dsimp only
  split_ifs with g1 g2
  · rfl
  · rfl
  · exact absurd h (by tauto)

/-- A key that was set in a sequence was set in every longer sequence. -/
theorem wasSet_cons {ops : List SessionOp} {key : String} (op : SessionOp)
    (h : WasSet ops key) : WasSet (op :: ops) key := by
  obtain ⟨before, sessionData, after, heq, hk⟩ := h
  exact ⟨op :: before, sessionData, after, by rw [heq]; rfl, hk⟩

/-- A key set and not deleted afterwards stays so when an operation comes
first. -/
theorem setAndNotDeleted_cons {ops : List SessionOp} {key : String} (op : SessionOp)
    (h : SetAndNotDeleted ops key) : SetAndNotDeleted (op :: ops) key := by
  obtain ⟨before, sessionData, after, heq, hk, hno⟩ := h
  exact ⟨op :: before, sessionData, after, by rw [heq]; rfl, hk, hno⟩

/-- Looking up another key is not affected by an insert. -/
theorem QHash.find_insert_other {α : Type} (h : QHash α) (key : String) (v : α) (k : String)
    (hne : k ≠ key) : QHash.find (QHash.insert h key v) k = QHash.find h k := by
  induction h with
  | nil =>
    have hb : (k == key) = false := by rw [beq_eq_false_iff_ne]; exact hne
    simp [QHash.insert, QHash.find, List.lookup, hb]
  | cons e t ih =>
    obtain ⟨k1, w⟩ := e
    by_cases hk : k1 = key
    · subst hk
      have hb : (k == k1) = false := by rw [beq_eq_false_iff_ne]; exact hne
      simp [QHash.insert, QHash.find, List.lookup, hb]
    · simp only [QHash.insert, hk, if_false, QHash.find, List.lookup]
      by_cases hk2 : k = k1
      · subst hk2; simp
      · have hb : (k == k1) = false := by rw [beq_eq_false_iff_ne]; exact hk2
        simp only [hb]
        exact ih

/-- The value of a key after `clear` of that key is invalid. -/
theorem value_clear_self (m : QQmlPropertyMap) (key : String) :
    QQmlPropertyMap.value (QQmlPropertyMap.clear m key) key = .undefined := by
  unfold QQmlPropertyMap.value QQmlPropertyMap.clear
  rw [QHash.find_insert_self]
  rfl

/-- The value of another key is not affected by `clear`. -/
theorem value_clear_other (m : QQmlPropertyMap) (key k : String) (hne : k ≠ key) :
    QQmlPropertyMap.value (QQmlPropertyMap.clear m key) k = QQmlPropertyMap.value m k := by
  unfold QQmlPropertyMap.value QQmlPropertyMap.clear
  rw [QHash.find_insert_other _ _ _ _ hne]

/-- The value of a key that a `session.set` payload does not have is not
affected by the set loop. -/
theorem value_upsert_other (sessionData : QVariantMap) (k : String)
    (hk : k ∉ QHash.keys sessionData) :
    ∀ m : QQmlPropertyMap,
      QQmlPropertyMap.value (sessionData.foldl (fun m kv => QHash.insert m kv.1 kv.2) m) k
        = QQmlPropertyMap.value m k := by
  induction sessionData with
  | nil => intro m; rfl
  | cons kv rest ih =>
    intro m
    simp only [QHash.keys, List.map_cons, List.mem_cons, not_or] at hk
    rw [List.foldl_cons, ih (by simpa [QHash.keys] using hk.2)]
    unfold QQmlPropertyMap.value
    rw [QHash.find_insert_other _ _ _ _ hk.1]

/-- The step of a `session.set` frame for the skill. -/
theorem gui_set_frame_bag (model : ActiveSkillsModel) (host : String → QQmlComponent)
    (c : MycroftController) (skillId : String) (sessionData : QVariantMap) :
    (sessionDataForSkill (onGuiSocketMessageReceived model host c
        (SessionOp.frame skillId (SessionOp.set sessionData)).1
        (SessionOp.frame skillId (SessionOp.set sessionData)).2).1 skillId).1
      = sessionData.foldl (fun m kv => QHash.insert m kv.1 kv.2)
          (sessionDataForSkill c skillId).1 := by
  have hstep : (onGuiSocketMessageReceived model host c
      (SessionOp.frame skillId (SessionOp.set sessionData)).1
      (SessionOp.frame skillId (SessionOp.set sessionData)).2).1
      = (sessionSet c (setMessage skillId sessionData)).1 :=
    gui_set_state model host c _ _ rfl
  rw [hstep, sessionSet_bag c _ skillId (by
    simp [setMessage, QJsonValue.value, List.lookup, QJsonValue.toString])]
  simp [setMessage, QJsonValue.value, List.lookup, QJsonValue.toMap]

/-- The step of a `session.delete` frame for the skill: the property is
cleared when skill identifier and property are non-empty, and nothing changes
otherwise. -/
theorem gui_delete_frame_bag (model : ActiveSkillsModel) (host : String → QQmlComponent)
    (c : MycroftController) (skillId property : String) :
    (sessionDataForSkill (onGuiSocketMessageReceived model host c
        (SessionOp.frame skillId (SessionOp.delete property)).1
        (SessionOp.frame skillId (SessionOp.delete property)).2).1 skillId).1
      = if skillId ≠ "" ∧ property ≠ "" then
          QQmlPropertyMap.clear (sessionDataForSkill c skillId).1 property
        else (sessionDataForSkill c skillId).1 := by
  have hstep : (onGuiSocketMessageReceived model host c
      (SessionOp.frame skillId (SessionOp.delete property)).1
      (SessionOp.frame skillId (SessionOp.delete property)).2).1
      = (sessionDelete c (deleteMessage skillId property)).1 :=
    gui_delete_state model host c _ _ rfl
  have hns : ((deleteMessage skillId property).value "namespace").toString = skillId := by
    simp [deleteMessage, QJsonValue.value, List.lookup, QJsonValue.toString]
  have hprop : ((deleteMessage skillId property).value "property").toString = property := by
    simp [deleteMessage, QJsonValue.value, List.lookup, QJsonValue.toString]
  rw [hstep]
  by_cases hgo : skillId ≠ "" ∧ property ≠ ""
  · rw [if_pos hgo, sessionDelete_bag c _ skillId property hns hprop hgo.1 hgo.2]
  · rw [if_neg hgo]
    have hign : (sessionDelete c (deleteMessage skillId property)).1 = c := by
      apply sessionDelete_ignored
      rw [hns, hprop]
      by_contra hcon
      push_neg at hcon
      exact hgo hcon
    rw [hign]

/-- The first frame of a sequence is handled before the others. -/
theorem runGui_cons_frame (model : ActiveSkillsModel) (host : String → QQmlComponent)
    (c : MycroftController) (skillId : String) (op : SessionOp) (rest : List SessionOp) :
    runGui model host c ((op :: rest).map (SessionOp.frame skillId))
      = runGui model host (onGuiSocketMessageReceived model host c
          (SessionOp.frame skillId op).1 (SessionOp.frame skillId op).2).1
          (rest.map (SessionOp.frame skillId)) := rfl

/-- The valid values of a skill's session data after a sequence of
`session.set` and `session.delete` frames, from any controller: the value was
valid before and not deleted on the way, or was set on the way. -/
theorem session_ops_valid (model : ActiveSkillsModel) (host : String → QQmlComponent)
    (skillId : String) (key : String) (ops : List SessionOp) :
    ∀ c : MycroftController,
      isValid (QQmlPropertyMap.value (sessionDataForSkill
        (runGui model host c (ops.map (SessionOp.frame skillId))) skillId).1 key) = true →
      (isValid (QQmlPropertyMap.value (sessionDataForSkill c skillId).1 key) = true ∧
        (skillId ≠ "" → key ≠ "" → ∀ op ∈ ops, op ≠ SessionOp.delete key)) ∨
      (WasSet ops key ∧ (skillId ≠ "" → key ≠ "" → SetAndNotDeleted ops key)) := by
  induction ops with
  | nil =>
    intro c hkey
    exact Or.inl ⟨hkey, fun _ _ op hop => absurd hop (List.not_mem_nil op)⟩
  | cons op rest ih =>
    intro c hkey
    rw [runGui_cons_frame] at hkey
    rcases ih _ hkey with ⟨hbag, hrest⟩ | ⟨hset, hsnd⟩
    · cases op with
      | set sessionData =>
        rw [gui_set_frame_bag] at hbag
        by_cases hdata : key ∈ QHash.keys sessionData
        · right
          exact ⟨⟨[], sessionData, rest, rfl, hdata⟩,
            fun h1 h2 => ⟨[], sessionData, rest, rfl, hdata, hrest h1 h2⟩⟩
        · rw [value_upsert_other sessionData key hdata] at hbag
          left
          refine ⟨hbag, fun h1 h2 o ho => ?_⟩
          rcases List.mem_cons.1 ho with rfl | ho
          · exact fun h => SessionOp.noConfusion h
          · exact hrest h1 h2 o ho
      | delete property =>
        rw [gui_delete_frame_bag] at hbag
        by_cases hgo : skillId ≠ "" ∧ property ≠ ""
        · rw [if_pos hgo] at hbag
          by_cases hsame : key = property
          · subst hsame
            rw [value_clear_self] at hbag
            exact absurd hbag (by decide)
          · rw [value_clear_other _ _ _ hsame] at hbag
            left
            refine ⟨hbag, fun h1 h2 o ho => ?_⟩
            rcases List.mem_cons.1 ho with rfl | ho
            · intro h
              exact hsame (SessionOp.delete.inj h).symm
            · exact hrest h1 h2 o ho
        · rw [if_neg hgo] at hbag
          left
          refine ⟨hbag, fun h1 h2 o ho => ?_⟩
          rcases List.mem_cons.1 ho with rfl | ho
          · intro h
            have hp : property = key := SessionOp.delete.inj h
            have hempty : property = "" := by
              by_contra hne
              exact hgo ⟨h1, hne⟩
            exact h2 (hp ▸ hempty)
          · exact hrest h1 h2 o ho
    · right
      exact ⟨wasSet_cons op hset, fun h1 h2 => setAndNotDeleted_cons op (hsnd h1 h2)⟩

/-- The keys listed in a skill's session data after a sequence of `session.set`
and `session.delete` frames, from any controller: the key was listed before, or
was set on the way, or was named by a `session.delete` on the way. -/
theorem session_ops_listed (model : ActiveSkillsModel) (host : String → QQmlComponent)
    (skillId : String) (key : String) (ops : List SessionOp) :
    ∀ c : MycroftController,
      key ∈ QHash.keys (sessionDataForSkill
        (runGui model host c (ops.map (SessionOp.frame skillId))) skillId).1 →
      key ∈ QHash.keys (sessionDataForSkill c skillId).1 ∨ WasSet ops key ∨
        SessionOp.delete key ∈ ops := by
  induction ops with
  | nil =>
    intro c hkey
    exact Or.inl hkey
  | cons op rest ih =>
    intro c hkey
    rw [runGui_cons_frame] at hkey
    rcases ih _ hkey with hbag | hset | hdel
    · cases op with
      | set sessionData =>
        rw [gui_set_frame_bag, mem_keys_upsert] at hbag
        rcases hbag with hdata | hold
        · exact Or.inr (Or.inl ⟨[], sessionData, rest, rfl, hdata⟩)
        · exact Or.inl hold
      | delete property =>
        rw [gui_delete_frame_bag] at hbag
        by_cases hgo : skillId ≠ "" ∧ property ≠ ""
        · rw [if_pos hgo, QQmlPropertyMap.clear, QHash.mem_keys_insert] at hbag
          rcases hbag with hsame | hold
          · subst hsame
            exact Or.inr (Or.inr (List.mem_cons_self _ _))
          · exact Or.inl hold
        · rw [if_neg hgo] at hbag
          exact Or.inl hbag
    · exact Or.inr (Or.inl (wasSet_cons op hset))
    · exact Or.inr (Or.inr (List.mem_cons_of_mem _ hdel))

/-- C9, as amended: for every skill identifier and every sequence of
`mycroft.session.set` / `mycroft.session.delete` frames for that skill handled
from an empty session store, the skill's session data holds a valid value for a
key only if some `session.set` of the sequence set the key and, when the skill
identifier and the key are both non-empty, no `session.delete` of the key
follows that `session.set`; and it lists a key only if some `session.set` set
it or some `session.delete` named it. -/
theorem session_bag_valid_only_set_keys (model : ActiveSkillsModel)
    (host : String → QQmlComponent) (c : MycroftController) (skillId : String)
    (ops : List SessionOp) (key : String) (hstore : c.m_skillData = []) :
    (isValid (QQmlPropertyMap.value (sessionDataForSkill
        (runGui model host c (ops.map (SessionOp.frame skillId))) skillId).1 key) = true →
      WasSet ops key ∧ (skillId ≠ "" → key ≠ "" → SetAndNotDeleted ops key)) ∧
    (key ∈ QHash.keys (sessionDataForSkill
        (runGui model host c (ops.map (SessionOp.frame skillId))) skillId).1 →
      WasSet ops key ∨ SessionOp.delete key ∈ ops) := by
  have hbag0 : (sessionDataForSkill c skillId).1 = [] := by
    simp [sessionDataForSkill, hstore, QHash.contains]
  constructor
  · intro hvalid
    rcases session_ops_valid model host skillId key ops c hvalid with ⟨hbag, _⟩ | h
    · exfalso
      rw [hbag0] at hbag
      have hinvalid : isValid (QQmlPropertyMap.value [] key) = false := rfl
      rw [hinvalid] at hbag
      exact Bool.false_ne_true hbag
    · exact h
  · intro hkey
    rcases session_ops_listed model host skillId key ops c hkey with hbag | h
    · exfalso
      rw [hbag0] at hbag
      exact absurd hbag (List.not_mem_nil key)
    · exact h

/-- Witness of C9: on `weather`, `temp` and `wind` are set and `temp` is
deleted; `wind` keeps a valid value, and `temp` has none although it is still
listed. -/
theorem session_bag_valid_only_set_keys_witness :
    (exampleController []).m_skillData = [] ∧
    isValid (QQmlPropertyMap.value (sessionDataForSkill
      (runGui specModel noHost (exampleController [])
        ([SessionOp.set [("temp", .string "72F"), ("wind", .string "3kn")],
          SessionOp.delete "temp"].map (SessionOp.frame "weather"))) "weather").1 "wind")
      = true ∧
    isValid (QQmlPropertyMap.value (sessionDataForSkill
      (runGui specModel noHost (exampleController [])
        ([SessionOp.set [("temp", .string "72F"), ("wind", .string "3kn")],
          SessionOp.delete "temp"].map (SessionOp.frame "weather"))) "weather").1 "temp")
      = false ∧
    QHash.keys (sessionDataForSkill
      (runGui specModel noHost (exampleController [])
        ([SessionOp.set [("temp", .string "72F"), ("wind", .string "3kn")],
          SessionOp.delete "temp"].map (SessionOp.frame "weather"))) "weather").1
      = ["temp", "wind"] ∧
    WasSet [SessionOp.set [("temp", .string "72F"), ("wind", .string "3kn")],
      SessionOp.delete "temp"] "wind" ∧
    ("weather" ≠ "" → "wind" ≠ "" →
      SetAndNotDeleted [SessionOp.set [("temp", .string "72F"), ("wind", .string "3kn")],
        SessionOp.delete "temp"] "wind") :=
  ⟨rfl, by decide, by decide, by decide,
   (session_bag_valid_only_set_keys specModel noHost (exampleController []) "weather"
     [SessionOp.set [("temp", .string "72F"), ("wind", .string "3kn")],
      SessionOp.delete "temp"] "wind" rfl).1 (by decide)⟩

/-- In a sequence of one `session.set` followed by one `session.delete` of the
key, the key does not count as set and not deleted. -/
theorem not_setAndNotDeleted_pair (sessionData : QVariantMap) (key : String) :
    ¬ SetAndNotDeleted [SessionOp.set sessionData, SessionOp.delete key] key := by
  rintro ⟨before, sd, after, heq, _, hno⟩
  cases before with
  | nil =>
    simp only [List.nil_append, List.cons.injEq] at heq
    exact hno (SessionOp.delete key) (by rw [← heq.2]; exact List.mem_singleton.2 rfl) rfl
  | cons b bs =>
    cases bs with
    | nil => simp at heq
    | cons b2 bs2 =>
      simp only [List.cons_append, List.cons.injEq] at heq
      have h3 := heq.2.2
      simp at h3

/-- A sequence of one `session.delete` sets no key. -/
theorem not_wasSet_delete (property key : String) :
    ¬ WasSet [SessionOp.delete property] key := by
  rintro ⟨before, sd, after, heq, _⟩
  cases before with
  | nil => simp at heq
  | cons b bs =>
    simp only [List.cons_append, List.cons.injEq] at heq
    have h2 := heq.2
    simp at h2

/-- C9 as stated fails: on `weather`, after `session.set` of `temp` and
`session.delete` of `temp` the session data still lists the key `temp`; after a
lone `session.delete` of `never` it lists `never`, which no `session.set` set;
for the empty skill identifier the `session.delete` is ignored and `temp` keeps
its valid value; and so does the empty key on `weather`. -/
theorem session_delete_keeps_key :
    ("temp" ∈ QHash.keys (sessionDataForSkill (runGui specModel noHost (exampleController [])
        ([SessionOp.set [("temp", .string "72F")], SessionOp.delete "temp"].map
          (SessionOp.frame "weather"))) "weather").1 ∧
      ¬ SetAndNotDeleted [SessionOp.set [("temp", .string "72F")], SessionOp.delete "temp"]
        "temp") ∧
    ("never" ∈ QHash.keys (sessionDataForSkill (runGui specModel noHost (exampleController [])
        ([SessionOp.delete "never"].map (SessionOp.frame "weather"))) "weather").1 ∧
      ¬ WasSet [SessionOp.delete "never"] "never") ∧
    (isValid (QQmlPropertyMap.value (sessionDataForSkill
        (runGui specModel noHost (exampleController [])
          ([SessionOp.set [("temp", .string "72F")], SessionOp.delete "temp"].map
            (SessionOp.frame ""))) "").1 "temp") = true ∧
      ¬ SetAndNotDeleted [SessionOp.set [("temp", .string "72F")], SessionOp.delete "temp"]
        "temp") ∧
    (isValid (QQmlPropertyMap.value (sessionDataForSkill
        (runGui specModel noHost (exampleController [])
          ([SessionOp.set [("", .string "72F")], SessionOp.delete ""].map
            (SessionOp.frame "weather"))) "weather").1 "") = true ∧
      ¬ SetAndNotDeleted [SessionOp.set [("", .string "72F")], SessionOp.delete ""] "") :=
  ⟨⟨by decide, not_setAndNotDeleted_pair _ _⟩, ⟨by decide, not_wasSet_delete _ _⟩,
   ⟨by decide, not_setAndNotDeleted_pair _ _⟩, ⟨by decide, not_setAndNotDeleted_pair _ _⟩⟩

/-- The map that `sessionDataForSkill` returns is the stored one, the empty map
when there is none. -/
theorem sessionDataForSkill_bag (c : MycroftController) (skillId : String) :
    (sessionDataForSkill c skillId).1 = (QHash.find c.m_skillData skillId).getD [] := by
  unfold sessionDataForSkill
  by_cases h : QHash.contains c.m_skillData skillId = true
  · rw [if_pos h]
  · rw [if_neg h]
    simp only [Bool.not_eq_true] at h
    rw [QHash.find_of_not_contains _ _ h]
    rfl

/-- A key with a value is in the hash. -/
theorem QHash.contains_of_find {α : Type} (h : QHash α) (key : String) (v : α)
    (hfind : QHash.find h key = some v) : QHash.contains h key = true := by
  by_contra hno
  simp only [Bool.not_eq_true] at hno
  rw [QHash.find_of_not_contains h key hno] at hfind
  exact Option.noConfusion hfind

/-- Replacing the value of the entry that was appended last. -/
theorem QHash.insert_append_self {α : Type} (h : QHash α) (key : String) (v w : α)
    (hno : QHash.contains h key = false) :
    QHash.insert (h ++ [(key, v)]) key w = h ++ [(key, w)] := by
  induction h with
  | nil => simp [QHash.insert]
  | cons e t ih =>
    obtain ⟨k1, u⟩ := e
    simp only [QHash.contains, List.any_cons, Bool.or_eq_false_iff, beq_eq_false_iff_ne] at hno
    have hrest := ih (by simpa [QHash.contains] using hno.2)
    simp only [List.cons_append, QHash.insert, hno.1, if_false]
    exact congrArg (List.cons (k1, u)) hrest

/-- The session store after a `mycroft.session.delete` that names a skill and a
property, read skill by skill: the skill's map has the property cleared, the
maps of the other skills are as before. -/
theorem sessionDelete_store_find (c : MycroftController) (doc : QJsonValue)
    (skillId property : String) (hns : (doc.value "namespace").toString = skillId)
    (hprop : (doc.value "property").toString = property)
    (h1 : skillId ≠ "") (h2 : property ≠ "") (s : String) :
    QHash.find (sessionDelete c doc).1.m_skillData s
      = if s = skillId then
          some (QQmlPropertyMap.clear ((QHash.find c.m_skillData skillId).getD []) property)
        else QHash.find c.m_skillData s := by
  have hbag := sessionDataForSkill_bag c skillId
  have hstore : (sessionDelete c doc).1.m_skillData
      = QHash.insert (sessionDataForSkill c skillId).2.m_skillData skillId
          (QQmlPropertyMap.clear (sessionDataForSkill c skillId).1 property) := by
    simp only [sessionDelete, hns, hprop, h1, h2, if_false, storeSessionData]
  rw [hstore, hbag]
  by_cases hs : s = skillId
  · rw [if_pos hs, hs, QHash.find_insert_self]
  · rw [if_neg hs, QHash.find_insert_other _ _ _ _ hs]
    unfold sessionDataForSkill
    by_cases hc : QHash.contains c.m_skillData skillId = true
    · rw [if_pos hc]
    · rw [if_neg hc]
      exact QHash.find_insert_other _ _ _ _ hs

/-- C10, as amended: a `mycroft.session.delete` leaves the controller, and so
the session store, unchanged when its namespace is empty or its property is
empty. When both are non-empty it clears the property in the session data of
the namespace: for a namespace without entry the store gains one entry, a map
that lists just the property, with an invalid value; for an entry whose map
lacks the property, the property is added to that map with an invalid value;
and in both cases the value of every property of every skill reads as
before. -/
theorem delete_without_target (model : ActiveSkillsModel) (host : String → QQmlComponent)
    (c : MycroftController) (message : String) (doc : QJsonValue) (skillId property : String)
    (hmsg : IsSessionDelete doc skillId property) :
    ((skillId = "" ∨ property = "") →
      (onGuiSocketMessageReceived model host c message doc).1 = c) ∧
    ((skillId ≠ "" ∧ property ≠ "" ∧ QHash.contains c.m_skillData skillId = false) →
      (onGuiSocketMessageReceived model host c message doc).1.m_skillData
        = c.m_skillData ++ [(skillId, [(property, .undefined)])]) ∧
    (∀ map : QQmlPropertyMap, skillId ≠ "" → property ≠ "" →
      QHash.find c.m_skillData skillId = some map → property ∉ QHash.keys map →
      (onGuiSocketMessageReceived model host c message doc).1.m_skillData
        = QHash.insert c.m_skillData skillId (map ++ [(property, .undefined)])) ∧
    ((QHash.contains c.m_skillData skillId = false ∨
        property ∉ QHash.keys (sessionDataForSkill c skillId).1) →
      ∀ s k : String,
        QQmlPropertyMap.value (sessionDataForSkill
          (onGuiSocketMessageReceived model host c message doc).1 s).1 k
          = QQmlPropertyMap.value (sessionDataForSkill c s).1 k) := by
  obtain ⟨htype, hns, hprop⟩ := hmsg
  rw [gui_delete_state model host c message doc htype]
  refine ⟨?_, ?_, ?_, ?_⟩
  · intro h
    exact sessionDelete_ignored c doc (by rw [hns, hprop]; exact h)
  · rintro ⟨h1, h2, hno⟩
    simp only [sessionDelete, hns, hprop, h1, h2, if_false, sessionDataForSkill, hno,
      storeSessionData, Bool.false_eq_true]
    rw [QHash.insert_of_not_contains _ _ _ hno]
    exact QHash.insert_append_self _ _ _ _ hno
  · intro map h1 h2 hfind hlack
    have hcont := QHash.contains_of_find _ _ _ hfind
    have hnokey : QHash.contains map property = false := by
      rw [← Bool.not_eq_true, QHash.contains_iff_mem_keys]
      exact hlack
    simp only [sessionDelete, hns, hprop, h1, h2, if_false, sessionDataForSkill, hcont,
      if_true, hfind, Option.getD_some, storeSessionData, QQmlPropertyMap.clear]
    rw [QHash.insert_of_not_contains _ _ _ hnokey]
  · intro hmissing s k
    by_cases hgo : skillId = "" ∨ property = ""
    · rw [sessionDelete_ignored c doc (by rw [hns, hprop]; exact hgo)]
    · push_neg at hgo
      have hlack : property ∉ QHash.keys (sessionDataForSkill c skillId).1 := by
        rcases hmissing with hno | hlack
        · rw [sessionDataForSkill_bag, QHash.find_of_not_contains _ _ hno]
          exact List.not_mem_nil property
        · exact hlack
      rw [sessionDataForSkill_bag, sessionDataForSkill_bag,
        sessionDelete_store_find c doc skillId property hns hprop hgo.1 hgo.2 s]
      by_cases hs : s = skillId
      · rw [if_pos hs, hs, Option.getD_some]
        rw [sessionDataForSkill_bag] at hlack
        by_cases hk : k = property
        · rw [hk, value_clear_self]
          have hnokey : QHash.contains ((QHash.find c.m_skillData skillId).getD []) property
              = false := by
            rw [← Bool.not_eq_true, QHash.contains_iff_mem_keys]
            exact hlack
          unfold QQmlPropertyMap.value
          rw [QHash.find_of_not_contains _ _ hnokey]
          rfl
        · rw [value_clear_other _ _ _ hk]
      · rw [if_neg hs]

/-- Witness of C10: a delete without namespace changes nothing; deleting the
property `wind`, which `weather` does not have, adds `wind` to its map with an
invalid value, and `temp` reads as before. -/
theorem delete_without_target_witness :
    IsSessionDelete (deleteMessage "" "temp") "" "temp" ∧
    (onGuiSocketMessageReceived specModel noHost busyController ""
      (deleteMessage "" "temp")).1 = busyController ∧
    QHash.keys (sessionDataForSkill (onGuiSocketMessageReceived specModel noHost
      busyController "" (deleteMessage "weather" "wind")).1 "weather").1 = ["temp", "wind"] ∧
    isValid (QQmlPropertyMap.value (sessionDataForSkill (onGuiSocketMessageReceived specModel
      noHost busyController "" (deleteMessage "weather" "wind")).1 "weather").1 "wind")
      = false ∧
    QQmlPropertyMap.value (sessionDataForSkill (onGuiSocketMessageReceived specModel noHost
      busyController "" (deleteMessage "weather" "wind")).1 "weather").1 "temp"
      = QQmlPropertyMap.value (sessionDataForSkill busyController "weather").1 "temp" :=
  ⟨by decide,
   (delete_without_target specModel noHost busyController "" (deleteMessage "" "temp")
     "" "temp" (by decide)).1 (Or.inl rfl),
   by decide, by decide,
   (delete_without_target specModel noHost busyController "" (deleteMessage "weather" "wind")
     "weather" "wind" (by decide)).2.2.2 (Or.inr (by decide)) "weather" "temp"⟩

/-- C10 as stated fails: on an empty session store, `mycroft.session.delete`
of `temp` for `weather` creates an entry for `weather` whose map lists `temp`;
and deleting `wind`, which the map of `weather` does not have, adds the key
`wind` to that map. -/
theorem delete_creates_entry :
    IsSessionDelete (deleteMessage "weather" "temp") "weather" "temp" ∧
    QHash.contains (exampleController []).m_skillData "weather" = false ∧
    (onGuiSocketMessageReceived specModel noHost (exampleController []) ""
      (deleteMessage "weather" "temp")).1.m_skillData = [("weather", [("temp", .undefined)])] ∧
    (onGuiSocketMessageReceived specModel noHost (exampleController []) ""
      (deleteMessage "weather" "temp")).1.m_skillData
        ≠ (exampleController []).m_skillData ∧
    IsSessionDelete (deleteMessage "weather" "wind") "weather" "wind" ∧
    "wind" ∉ QHash.keys (sessionDataForSkill busyController "weather").1 ∧
    "wind" ∈ QHash.keys (sessionDataForSkill (onGuiSocketMessageReceived specModel noHost
      busyController "" (deleteMessage "weather" "wind")).1 "weather").1 :=
  ⟨by decide, by decide, rfl, fun h => List.noConfusion h, by decide, by decide, by decide⟩

/-! ## Theorems: decoding, noise and the main channel -/

/-- C11, as amended: for text that does not decode (the null document), both
handlers leave the controller unchanged and open or send nothing; the
presentation-channel handler only logs, and the main-channel handler logs the
empty type and emits exactly the signal `intentRecevied` with the empty type
and the empty payload. -/
theorem undecodable_text_handling (model : ActiveSkillsModel)
    (host : String → QQmlComponent) (c : MycroftController) (message : String) :
    (onGuiSocketMessageReceived model host c message .undefined).1 = c ∧
    (onGuiSocketMessageReceived model host c message .undefined).2.all Effect.isLog = true ∧
    (onMainSocketMessageReceived c message .undefined).1 = c ∧
    (onMainSocketMessageReceived c message .undefined).2
      = [.qDebug "type ", .intentRecevied "" []] :=
  ⟨rfl, rfl, rfl, rfl⟩

/-- C11 as stated fails on the main channel: for text that does not decode, the
handler emits the signal `intentRecevied`, so not every effect is a log line. -/
theorem undecodable_text_emits_intent :
    (onMainSocketMessageReceived (exampleController []) "not json" .undefined).2.any
      Effect.isIntentRecevied = true ∧
    (onMainSocketMessageReceived (exampleController []) "not json" .undefined).2.all
      Effect.isLog = false :=
  ⟨by decide, by decide⟩

/-- C12: `status()` depends only on the timer flag and the state of the main
socket; with the timer active it is `Connecting` for every socket state, and
with the timer inactive it is `Closed` for the unconnected state, `Open` for the
connected state, `Closing` for the closing state and `Connecting` for each of the
four other states. -/
theorem status_table :
    (∃ f : Bool → SocketState → Status,
      ∀ c : MycroftController, status c = f c.m_reconnectTimer c.m_mainWebSocket) ∧
    ∀ c : MycroftController,
      (∀ s : SocketState,
        status { c with m_reconnectTimer := true, m_mainWebSocket := s } = .Connecting) ∧
      status { c with m_reconnectTimer := false, m_mainWebSocket := .UnconnectedState }
        = .Closed ∧
      status { c with m_reconnectTimer := false, m_mainWebSocket := .ConnectedState }
        = .Open ∧
      status { c with m_reconnectTimer := false, m_mainWebSocket := .ClosingState }
        = .Closing ∧
      status { c with m_reconnectTimer := false, m_mainWebSocket := .HostLookupState }
        = .Connecting ∧
      status { c with m_reconnectTimer := false, m_mainWebSocket := .ConnectingState }
        = .Connecting ∧
      status { c with m_reconnectTimer := false, m_mainWebSocket := .BoundState }
        = .Connecting ∧
      status { c with m_reconnectTimer := false, m_mainWebSocket := .ListeningState }
        = .Connecting := by
  refine ⟨⟨fun timer s => status { exampleController [] with
      m_reconnectTimer := timer, m_mainWebSocket := s }, fun c => rfl⟩, fun c => ?_⟩
  exact ⟨fun s => rfl, rfl, rfl, rfl, rfl, rfl, rfl, rfl⟩

/-- A `mycroft.gui.port` is routed to its branch after the debug line and the
signal `intentRecevied`. -/
theorem main_gui_port_route (c : MycroftController) (message : String) (doc : QJsonValue)
    (htype : (doc.value "type").toString = "mycroft.gui.port") :
    onMainSocketMessageReceived c message doc
      = ((guiPort c doc).1,
         .qDebug "type mycroft.gui.port" ::
           .intentRecevied "mycroft.gui.port" (doc.value "data").toMap :: (guiPort c doc).2) := by
  simp [onMainSocketMessageReceived, routeMainMessage, htype, startsWith]

/-- C13: for a main-channel `mycroft.gui.port`, the presentation socket is opened
exactly when the port is at least 0 and the `gui_id` is the controller's
`m_guiId`; when it is opened, a single `open` is made, to the URL
`<address>:<port>/gui` with that port. -/
theorem gui_port_opens_iff (c : MycroftController) (message : String) (doc : QJsonValue)
    (port : Int) (guiId : String) (hmsg : IsGuiPort doc port guiId) :
    ((onMainSocketMessageReceived c message doc).2.any Effect.isOpenGuiSocket = true ↔
      (0 ≤ port ∧ guiId = c.m_guiId)) ∧
    ((0 ≤ port ∧ guiId = c.m_guiId) →
      (onMainSocketMessageReceived c message doc).2
        = [.qDebug "type mycroft.gui.port",
           .intentRecevied "mycroft.gui.port" (doc.value "data").toMap,
           .openGuiSocket (c.webSocketAddress ++ ":" ++ toString port ++ "/gui") port]) := by
  obtain ⟨htype, hport, hid⟩ := hmsg
  rw [main_gui_port_route c message doc htype]
  unfold guiPort
  simp only [hport, hid]
  by_cases h1 : port < 0
  · rw [if_pos h1]
    refine ⟨⟨fun h => ?_, fun h => ?_⟩, fun h => ?_⟩
    · simp [Effect.isOpenGuiSocket] at h
    · omega
    · omega
  · rw [if_neg h1]
    by_cases h2 : guiId = c.m_guiId
    · rw [if_neg (not_not.2 h2)]
      refine ⟨⟨fun _ => ⟨by omega, h2⟩, fun _ => ?_⟩, fun _ => rfl⟩
      simp [Effect.isOpenGuiSocket]
    · rw [if_pos h2]
      refine ⟨⟨fun h => ?_, fun h => absurd h.2 h2⟩, fun h => absurd h.2 h2⟩
      simp [Effect.isOpenGuiSocket] at h

/-- Witness of C13: port 5678 with the matching token opens
`ws://0.0.0.0:5678/gui`. -/
theorem gui_port_opens_iff_witness :
    IsGuiPort (guiPortMessage 5678 "gui-1") 5678 "gui-1" ∧
    (onMainSocketMessageReceived (exampleController []) "" (guiPortMessage 5678 "gui-1")).2
      = [.qDebug "type mycroft.gui.port",
         .intentRecevied "mycroft.gui.port"
           ((guiPortMessage 5678 "gui-1").value "data").toMap,
         .openGuiSocket ((exampleController []).webSocketAddress ++ ":" ++
           toString (5678 : Int) ++ "/gui") 5678] ∧
    (exampleController []).webSocketAddress ++ ":" ++ toString (5678 : Int) ++ "/gui"
      = "ws://0.0.0.0:5678/gui" ∧
    (onMainSocketMessageReceived (exampleController []) ""
      (guiPortMessage 5678 "another")).2.any Effect.isOpenGuiSocket = false :=
  ⟨by decide,
   (gui_port_opens_iff (exampleController []) "" (guiPortMessage 5678 "gui-1") 5678 "gui-1"
     (by decide)).2 ⟨by decide, rfl⟩,
   by decide, by decide⟩

/-- C14: `sendRequest` and `sendGuiRequest` leave the controller as it was; when
their socket is not in `ConnectedState` they send nothing, and when it is they
make exactly one `sendTextMessage`, of the object whose members are `type`, the
given type, and `data`, the given payload. -/
theorem send_only_when_connected (c : MycroftController) (type : String)
    (payload : QVariantMap) :
    (sendRequest c type payload).1 = c ∧ (sendGuiRequest c type payload).1 = c ∧
    (c.m_mainWebSocket ≠ .ConnectedState →
      (sendRequest c type payload).2.any Effect.isSendTextMessage = false) ∧
    (c.m_guiWebSocket ≠ .ConnectedState →
      (sendGuiRequest c type payload).2.any Effect.isSendTextMessage = false) ∧
    (c.m_mainWebSocket = .ConnectedState →
      (sendRequest c type payload).2
        = [.mainSendTextMessage (requestEnvelope type payload)]) ∧
    (c.m_guiWebSocket = .ConnectedState →
      (sendGuiRequest c type payload).2
        = [.guiSendTextMessage (requestEnvelope type payload)]) ∧
    (requestEnvelope type payload).toMap.map Prod.fst = ["type", "data"] ∧
    (requestEnvelope type payload).value "type" = .string type ∧
    (requestEnvelope type payload).value "data" = .object payload := by
  refine ⟨?_, ?_, ?_, ?_, ?_, ?_, rfl, rfl, rfl⟩
  · unfold sendRequest; split_ifs <;> rfl
  · unfold sendGuiRequest; split_ifs <;> rfl
  · intro h; unfold sendRequest; rw [if_pos h]; rfl
  · intro h; unfold sendGuiRequest; rw [if_pos h]; rfl
  · intro h; unfold sendRequest; rw [if_neg (not_not.2 h)]
  · intro h; unfold sendGuiRequest; rw [if_neg (not_not.2 h)]

/-- Witness of C14: a controller whose two sockets are connected sends one frame
on each. -/
theorem send_only_when_connected_witness :
    (sendRequest (exampleController []) "recognizer_loop:utterance" []).2
      = [.mainSendTextMessage (requestEnvelope "recognizer_loop:utterance" [])] ∧
    (sendGuiRequest (exampleController []) "mycroft.events.triggered" []).2
      = [.guiSendTextMessage (requestEnvelope "mycroft.events.triggered" [])] ∧
    (sendRequest { exampleController [] with m_mainWebSocket := .ClosingState }
      "recognizer_loop:utterance" []).2.any Effect.isSendTextMessage = false :=
  ⟨(send_only_when_connected (exampleController []) "recognizer_loop:utterance" []).2.2.2.2.1
     rfl,
   (send_only_when_connected (exampleController []) "mycroft.events.triggered"
     []).2.2.2.2.2.1 rfl,
   (send_only_when_connected { exampleController [] with m_mainWebSocket := .ClosingState }
     "recognizer_loop:utterance" []).2.2.1 (by decide)⟩

/-- C15: an error of the main socket that is `ConnectionRefusedError` or
`HostNotFoundError` starts the reconnect timer, so that `status()` is
`Connecting`; the `connected` signal of the main socket stops the timer; and an
error of any other kind leaves the controller, and so the timer, as it was. -/
theorem reconnect_timer_machine (c : MycroftController) (error : SocketError) :
    ((error = .ConnectionRefusedError ∨ error = .HostNotFoundError) →
      (onMainSocketError c error).1.m_reconnectTimer = true ∧
      status (onMainSocketError c error).1 = .Connecting) ∧
    (onMainSocketConnected c).1.m_reconnectTimer = false ∧
    ((error ≠ .ConnectionRefusedError ∧ error ≠ .HostNotFoundError) →
      (onMainSocketError c error).1 = c) := by
  refine ⟨fun h => ?_, rfl, fun h => ?_⟩
  · have hcond : ¬ (error ≠ .HostNotFoundError ∧ error ≠ .ConnectionRefusedError) := by
      rcases h with h | h <;> simp [h]
    unfold onMainSocketError
    rw [if_neg hcond]
    exact ⟨rfl, rfl⟩
  · unfold onMainSocketError
    rw [if_pos ⟨h.2, h.1⟩]

/-- Witness of C15: a refused connection while unconnected, and a time-out. -/
theorem reconnect_timer_machine_witness :
    status (onMainSocketError
      { exampleController [] with m_mainWebSocket := .UnconnectedState }
      .ConnectionRefusedError).1 = .Connecting ∧
    (onMainSocketError (exampleController []) .SocketTimeoutError).1
      = exampleController [] :=
  ⟨((reconnect_timer_machine { exampleController [] with
      m_mainWebSocket := .UnconnectedState } .ConnectionRefusedError).1 (Or.inl rfl)).2,
   (reconnect_timer_machine (exampleController []) .SocketTimeoutError).2.2
     ⟨by decide, by decide⟩⟩


/-- A `mycroft.gui.show` is routed to its branch. -/
theorem gui_show_route (model : ActiveSkillsModel) (host : String → QQmlComponent)
    (c : MycroftController) (message : String) (doc : QJsonValue)
    (htype : (doc.value "type").toString = "mycroft.gui.show") :
    onGuiSocketMessageReceived model host c message doc
      = ((guiShow host c doc).1,
         .qWarning message :: .qDebug "gui message type mycroft.gui.show" ::
           (guiShow host c doc).2) := by
  simp [onGuiSocketMessageReceived, routeGuiMessage, htype, startsWith]

/-- No hash of the registry has the URL: the search of lines 281-283 fails. -/
theorem find_gui_none (guis : QHash (QHash (Option QQuickItem))) (guiUrl : String)
    (hnew : ∀ e ∈ guis, QHash.contains e.2 guiUrl = false) :
    guis.find? (fun e => QHash.contains e.2 guiUrl) = none := by
  rw [List.find?_eq_none]
  intro e he
  rw [hnew e he]
  exact Bool.false_ne_true

/-- C16: for a `mycroft.gui.show` with non-empty namespace and URL, whose URL is
in no hash of the registry, when the component of the rendering host has errors
or its object is not a `QQuickItem`, the controller after the handler is the
controller before it (registry and session store included) and the signal
`skillGuiCreated` is not emitted. -/
theorem gui_show_host_failure (model : ActiveSkillsModel) (host : String → QQmlComponent)
    (c : MycroftController) (message : String) (doc : QJsonValue) (skillId guiUrl : String)
    (hmsg : IsGuiShow doc skillId guiUrl) (hskill : skillId ≠ "") (hurl : guiUrl ≠ "")
    (hnew : ∀ e ∈ c.m_guis, QHash.contains e.2 guiUrl = false)
    (hfail : (host guiUrl).errors ≠ [] ∨ (host guiUrl).guiItem = none) :
    (onGuiSocketMessageReceived model host c message doc).1 = c ∧
    (onGuiSocketMessageReceived model host c message doc).2.any Effect.isSkillGuiCreated
      = false := by
  obtain ⟨htype, hns, hu⟩ := hmsg
  rw [gui_show_route model host c message doc htype]
  unfold guiShow
  cases hgui : c.m_gui with
  | none => exact ⟨rfl, rfl⟩
  | some item =>
    simp only [hns, hu, if_neg hskill, if_neg hurl, find_gui_none c.m_guis guiUrl hnew]
    by_cases herr : (host guiUrl).errors ≠ []
    · rw [if_pos herr]
      refine ⟨rfl, ?_⟩
      simp [Effect.isSkillGuiCreated, Effect.isLog]
    · rw [if_neg herr]
      rcases hfail with h | h
      · exact absurd h herr
      · rw [h]
        exact ⟨rfl, rfl⟩

/-- Witness of C16: the host reports an error for a URL that is not registered. -/
theorem gui_show_host_failure_witness :
    IsGuiShow (showMessage "clock" "file:///clock.qml") "clock" "file:///clock.qml" ∧
    (onGuiSocketMessageReceived specModel failingHost
      { busyController with m_gui := some 1 } ""
      (showMessage "clock" "file:///clock.qml")).1 = { busyController with m_gui := some 1 } ∧
    (onGuiSocketMessageReceived specModel failingHost
      { busyController with m_gui := some 1 } ""
      (showMessage "clock" "file:///clock.qml")).2.any Effect.isSkillGuiCreated = false :=
  ⟨by decide,
   gui_show_host_failure specModel failingHost { busyController with m_gui := some 1 } ""
     (showMessage "clock" "file:///clock.qml") "clock" "file:///clock.qml" (by decide)
     (by decide) (by decide) (by decide) (Or.inl (by decide))⟩

/-- A message whose type starts with a noise prefix: the main-channel handler
returns at once, the presentation-channel handler after the line
`qWarning()<<message` of line 223. -/
theorem noise_dropped (model : ActiveSkillsModel) (host : String → QQmlComponent)
    (c : MycroftController) (message : String) (doc : QJsonValue) (hnoise : IsNoise doc) :
    onMainSocketMessageReceived c message doc = (c, []) ∧
    onGuiSocketMessageReceived model host c message doc = (c, [.qWarning message]) := by
  have hcond : (startsWith (doc.value "type").toString "enclosure" ||
      startsWith (doc.value "type").toString "mycroft-date") = true := by
    rcases hnoise with h | h <;> simp [h]
  unfold onMainSocketMessageReceived onGuiSocketMessageReceived
  simp only [hcond, if_true, and_self]

/-- C17 (defect in the code): on the presentation channel a message of type
`enclosure.mouth.reset` leaves the controller unchanged and emits nothing, but
its text is logged by the `qWarning()<<message` of line 223, which stands before
the noise filter; on the main channel the same message is dropped without any
effect. -/
theorem gui_noise_is_logged (model : ActiveSkillsModel) (host : String → QQmlComponent)
    (c : MycroftController) (message : String) :
    onGuiSocketMessageReceived model host c message (typedMessage "enclosure.mouth.reset" [])
      = (c, [.qWarning message]) ∧
    onMainSocketMessageReceived c message (typedMessage "enclosure.mouth.reset" [])
      = (c, []) :=
  ⟨rfl, rfl⟩

/-- The `mycroft.gui.port` branch leaves the controller as it was. -/
theorem guiPort_state (c : MycroftController) (doc : QJsonValue) : (guiPort c doc).1 = c := by
  unfold guiPort
  dsimp only
  split_ifs <;> rfl

/-- The `mycroft.gui.port` branch never emits `intentRecevied`. -/
theorem guiPort_no_intent (c : MycroftController) (doc : QJsonValue) :
    (guiPort c doc).2.any Effect.isIntentRecevied = false := by
  unfold guiPort
  dsimp only
  split_ifs <;> rfl

/-- The routing of the main channel never emits `intentRecevied`. -/
theorem routeMain_no_intent (c : MycroftController) (type : String) (doc : QJsonValue) :
    (routeMainMessage c type doc).2.any Effect.isIntentRecevied = false := by
  unfold routeMainMessage
  by_cases h1 : type = "intent_failure"
  · rw [if_pos h1]; rfl
  rw [if_neg h1]
  by_cases h2 : type = "recognizer_loop:audio_output_start"
  · rw [if_pos h2]; rfl
  rw [if_neg h2]
  by_cases h3 : type = "recognizer_loop:audio_output_end"
  · rw [if_pos h3]; rfl
  rw [if_neg h3]
  by_cases h4 : type = "recognizer_loop:record_begin"
  · rw [if_pos h4]; rfl
  rw [if_neg h4]
  by_cases h5 : type = "recognizer_loop:record_end"
  · rw [if_pos h5]; rfl
  rw [if_neg h5]
  by_cases h6 : type = "mycroft.speech.recognition.unknown"
  · rw [if_pos h6]; rfl
  rw [if_neg h6]
  by_cases h7 : type = "mycroft.skill.handler.start"
  · rw [if_pos h7]; rfl
  rw [if_neg h7]
  by_cases h8 : type = "mycroft.skill.handler.complete"
  · rw [if_pos h8]; rfl
  rw [if_neg h8]
  by_cases h9 : type = "speak"
  · rw [if_pos h9]; rfl
  rw [if_neg h9]
  by_cases h10 : type = "mycroft.stop.handled" ∨ type = "mycroft.stop"
  · rw [if_pos h10]; rfl
  rw [if_neg h10]
  by_cases h11 : type = "mycroft.gui.port"
  · rw [if_pos h11]; exact guiPort_no_intent c doc
  rw [if_neg h11]; rfl

/-- C20: for every main-channel message whose type does not start with a noise
prefix, the effects of the handler are the debug line, then the signal
`intentRecevied` with the type and the `data` payload of the message, then the
effects of the routing, none of which is `intentRecevied`; so exactly one
`intentRecevied` is emitted, whatever the type. -/
theorem intent_received_once (c : MycroftController) (message : String) (doc : QJsonValue)
    (hnot : ¬ IsNoise doc) :
    (onMainSocketMessageReceived c message doc).2
      = .qDebug ("type " ++ (doc.value "type").toString) ::
          .intentRecevied (doc.value "type").toString (doc.value "data").toMap ::
          (routeMainMessage c (doc.value "type").toString doc).2 ∧
    (routeMainMessage c (doc.value "type").toString doc).2.any Effect.isIntentRecevied
      = false ∧
    (onMainSocketMessageReceived c message doc).2.countP Effect.isIntentRecevied = 1 := by
  have hcond : ¬ ((startsWith (doc.value "type").toString "enclosure" ||
      startsWith (doc.value "type").toString "mycroft-date") = true) := by
    intro h
    rw [Bool.or_eq_true] at h
    exact hnot h
  have heff : (onMainSocketMessageReceived c message doc).2
      = .qDebug ("type " ++ (doc.value "type").toString) ::
          .intentRecevied (doc.value "type").toString (doc.value "data").toMap ::
          (routeMainMessage c (doc.value "type").toString doc).2 := by
    unfold onMainSocketMessageReceived
    dsimp only
    rw [if_neg hcond]
  refine ⟨heff, routeMain_no_intent c _ doc, ?_⟩
  rw [heff, List.countP_cons_of_neg _ _ (by simp [Effect.isIntentRecevied]),
    List.countP_cons_of_pos _ _ (by simp [Effect.isIntentRecevied])]
  have hzero : (routeMainMessage c (doc.value "type").toString doc).2.countP
      Effect.isIntentRecevied = 0 := by
    rw [List.countP_eq_zero]
    intro e he hyes
    have hany := routeMain_no_intent c (doc.value "type").toString doc
    rw [List.any_eq_false] at hany
    exact hany e he hyes
  rw [hzero]

/-- Witness of C20: an `intent_failure`, which has its own routing entry. -/
theorem intent_received_once_witness :
    ¬ IsNoise (typedMessage "intent_failure" []) ∧
    (onMainSocketMessageReceived (exampleController []) "" (typedMessage "intent_failure" [])).2
      = [.qDebug "type intent_failure", .intentRecevied "intent_failure" [],
         .isListeningChanged, .notUnderstood] ∧
    (onMainSocketMessageReceived (exampleController []) ""
      (typedMessage "intent_failure" [])).2.countP Effect.isIntentRecevied = 1 :=
  ⟨by decide, rfl,
   (intent_received_once (exampleController []) "" (typedMessage "intent_failure" [])
     (by decide)).2.2⟩

/-- The current skill after the routing of a main-channel message. -/
theorem routeMain_currentSkill (c : MycroftController) (type : String) (doc : QJsonValue) :
    (routeMainMessage c type doc).1.m_currentSkill
      = if type = "mycroft.skill.handler.start" then
          ((doc.value "data").value "name").toString
        else if type = "mycroft.skill.handler.complete" then ""
        else c.m_currentSkill := by
  unfold routeMainMessage
  by_cases h7 : type = "mycroft.skill.handler.start"
  · subst h7; rfl
  by_cases h8 : type = "mycroft.skill.handler.complete"
  · subst h8; rfl
  simp only [if_neg h7, if_neg h8]
  by_cases h1 : type = "intent_failure"
  · rw [if_pos h1]
  rw [if_neg h1]
  by_cases h2 : type = "recognizer_loop:audio_output_start"
  · rw [if_pos h2]
  rw [if_neg h2]
  by_cases h3 : type = "recognizer_loop:audio_output_end"
  · rw [if_pos h3]
  rw [if_neg h3]
  by_cases h4 : type = "recognizer_loop:record_begin"
  · rw [if_pos h4]
  rw [if_neg h4]
  by_cases h5 : type = "recognizer_loop:record_end"
  · rw [if_pos h5]
  rw [if_neg h5]
  by_cases h6 : type = "mycroft.speech.recognition.unknown"
  · rw [if_pos h6]
  rw [if_neg h6]
  by_cases h9 : type = "speak"
  · rw [if_pos h9]
  rw [if_neg h9]
  by_cases h10 : type = "mycroft.stop.handled" ∨ type = "mycroft.stop"
  · rw [if_pos h10]
  rw [if_neg h10]
  by_cases h11 : type = "mycroft.gui.port"
  · rw [if_pos h11, guiPort_state]
  rw [if_neg h11]

/-- The current skill after the main-channel handler: set by a
`mycroft.skill.handler.start`, cleared by a `mycroft.skill.handler.complete`,
kept by every other message. -/
theorem main_step_currentSkill (c : MycroftController) (message : String)
    (doc : QJsonValue) :
    (onMainSocketMessageReceived c message doc).1.m_currentSkill
      = if isHandlerStart doc then ((doc.value "data").value "name").toString
        else if isHandlerComplete doc then ""
        else c.m_currentSkill := by
  unfold onMainSocketMessageReceived isHandlerStart isHandlerComplete
  dsimp only
  by_cases hs : (doc.value "type").toString = "mycroft.skill.handler.start"
  · rw [hs]; rfl
  by_cases hc : (doc.value "type").toString = "mycroft.skill.handler.complete"
  · rw [hc]; rfl
  have hs2 : ((doc.value "type").toString == "mycroft.skill.handler.start") = false := by
    rw [beq_eq_false_iff_ne]; exact hs
  have hc2 : ((doc.value "type").toString == "mycroft.skill.handler.complete") = false := by
    rw [beq_eq_false_iff_ne]; exact hc
  rw [hs2, hc2]
  split
  · rfl
  · rw [routeMain_currentSkill, if_neg hs, if_neg hc]
    rfl

/-- A `mycroft.skill.handler.complete` is not a `mycroft.skill.handler.start`. -/
theorem not_start_of_complete (doc : QJsonValue) (h : isHandlerComplete doc = true) :
    isHandlerStart doc = false := by
  unfold isHandlerComplete at h
  unfold isHandlerStart
  rw [beq_iff_eq] at h
  rw [h]
  decide

/-- The uncompleted starts of a sequence with one more message at its end. -/
theorem uncompletedStarts_concat (docs : List QJsonValue) (doc : QJsonValue) :
    uncompletedStarts (docs ++ [doc])
      = if isHandlerComplete doc then []
        else uncompletedStarts docs ++
          (if isHandlerStart doc then [((doc.value "data").value "name").toString] else []) := by
  induction docs with
  | nil =>
    by_cases hc : isHandlerComplete doc = true
    · simp [uncompletedStarts, hc, not_start_of_complete doc hc]
    · by_cases hs : isHandlerStart doc = true <;> simp [uncompletedStarts, hc, hs]
  | cons x xs ih =>
    have hstep : uncompletedStarts (x :: (xs ++ [doc]))
        = if isHandlerStart x && (xs ++ [doc]).all (fun d => !isHandlerComplete d) then
            ((x.value "data").value "name").toString :: uncompletedStarts (xs ++ [doc])
          else uncompletedStarts (xs ++ [doc]) := rfl
    have hold : uncompletedStarts (x :: xs)
        = if isHandlerStart x && xs.all (fun d => !isHandlerComplete d) then
            ((x.value "data").value "name").toString :: uncompletedStarts xs
          else uncompletedStarts xs := rfl
    rw [List.cons_append, hstep, ih, hold, List.all_append]
    by_cases hc : isHandlerComplete doc = true
    · simp [hc]
    · simp only [Bool.not_eq_true] at hc
      by_cases hx : (isHandlerStart x && xs.all (fun d => !isHandlerComplete d)) = true
      · simp [hc, hx]
      · simp only [Bool.not_eq_true] at hx
        simp [hc, hx]

/-- The current skill in the words of the routing table, for a sequence with one
more message at its end. -/
theorem specCurrentSkill_concat (docs : List QJsonValue) (doc : QJsonValue) :
    specCurrentSkill (docs ++ [doc])
      = if isHandlerStart doc then ((doc.value "data").value "name").toString
        else if isHandlerComplete doc then ""
        else specCurrentSkill docs := by
  unfold specCurrentSkill
  rw [uncompletedStarts_concat]
  by_cases hc : isHandlerComplete doc = true
  · simp [hc, not_start_of_complete doc hc]
  · by_cases hs : isHandlerStart doc = true
    · simp [hc, hs, List.getLast?_concat]
    · simp [hc, hs]

/-- The main-channel handler keeps `m_currentSkill` equal to the current skill
in the words of the routing table. -/
theorem runMain_currentSkill (c : MycroftController) (frames : List (String × QJsonValue))
    (hinit : c.m_currentSkill = "") :
    (runMain c frames).m_currentSkill = specCurrentSkill (frames.map Prod.snd) := by
  induction frames using List.reverseRecOn with
  | nil => exact hinit
  | append_singleton fs f ih =>
    have hrun : runMain c (fs ++ [f])
        = (onMainSocketMessageReceived (runMain c fs) f.1 f.2).1 := by
      unfold runMain
      rw [List.foldl_append]
      rfl
    rw [hrun, main_step_currentSkill, List.map_append, List.map_singleton,
      specCurrentSkill_concat, ih]

/-- C18: from a controller without current skill, after any sequence of
main-channel messages the signal `fallbackTextRecieved` of a `speak` message
carries the `name` payload of the most recent `mycroft.skill.handler.start`
that no `mycroft.skill.handler.complete` has followed, the empty string if
there is none; a `mycroft.skill.handler.start` sets `m_currentSkill` to its
`name` payload, a `mycroft.skill.handler.complete` clears it and no other
message changes it. -/
theorem current_skill_tracking (c : MycroftController) (frames : List (String × QJsonValue))
    (hinit : c.m_currentSkill = "") :
    (∀ (message : String) (doc : QJsonValue), (doc.value "type").toString = "speak" →
      (onMainSocketMessageReceived (runMain c frames) message doc).2
        = [.qDebug "type speak", .intentRecevied "speak" (doc.value "data").toMap,
           .fallbackTextRecieved (specCurrentSkill (frames.map Prod.snd))
             (doc.value "data").toMap]) ∧
    (∀ (s : MycroftController) (message : String) (doc : QJsonValue),
      ((doc.value "type").toString = "mycroft.skill.handler.start" →
        (onMainSocketMessageReceived s message doc).1.m_currentSkill
          = ((doc.value "data").value "name").toString) ∧
      ((doc.value "type").toString = "mycroft.skill.handler.complete" →
        (onMainSocketMessageReceived s message doc).1.m_currentSkill = "") ∧
      ((doc.value "type").toString ≠ "mycroft.skill.handler.start" →
        (doc.value "type").toString ≠ "mycroft.skill.handler.complete" →
        (onMainSocketMessageReceived s message doc).1.m_currentSkill = s.m_currentSkill)) := by
  constructor
  · intro message doc htype
    have hskill := runMain_currentSkill c frames hinit
    unfold onMainSocketMessageReceived
    simp only [htype]
    rw [← hskill]
    rfl
  · intro s message doc
    rw [main_step_currentSkill]
    unfold isHandlerStart isHandlerComplete
    refine ⟨fun h => ?_, fun h => ?_, fun h1 h2 => ?_⟩
    · rw [h]; rfl
    · rw [h]; rfl
    · have hs2 : ((doc.value "type").toString == "mycroft.skill.handler.start") = false := by
        rw [beq_eq_false_iff_ne]; exact h1
      have hc2 : ((doc.value "type").toString == "mycroft.skill.handler.complete") = false := by
        rw [beq_eq_false_iff_ne]; exact h2
      rw [hs2, hc2]
      rfl

/-- Witness of C18: `weather` starts, `clock` starts and completes, then a
`speak` arrives: no skill is current; after `weather` alone, `weather` is. -/
theorem current_skill_tracking_witness :
    (exampleController []).m_currentSkill = "" ∧
    specCurrentSkill [typedMessage "mycroft.skill.handler.start" [("name", .string "weather")],
      typedMessage "mycroft.skill.handler.start" [("name", .string "clock")],
      typedMessage "mycroft.skill.handler.complete" []] = "" ∧
    specCurrentSkill [typedMessage "mycroft.skill.handler.start" [("name", .string "weather")],
      typedMessage "recognizer_loop:record_begin" []] = "weather" ∧
    (onMainSocketMessageReceived (runMain (exampleController [])
        [("", typedMessage "mycroft.skill.handler.start" [("name", .string "weather")]),
         ("", typedMessage "recognizer_loop:record_begin" [])]) ""
      (typedMessage "speak" [("utterance", .string "sunny")])).2
      = [.qDebug "type speak",
         .intentRecevied "speak" ((typedMessage "speak" [("utterance", .string "sunny")]).value
           "data").toMap,
         .fallbackTextRecieved (specCurrentSkill
           ([("", typedMessage "mycroft.skill.handler.start" [("name", .string "weather")]),
             ("", typedMessage "recognizer_loop:record_begin" [])].map Prod.snd))
           ((typedMessage "speak" [("utterance", .string "sunny")]).value "data").toMap] :=
  ⟨rfl, by decide, by decide,
   (current_skill_tracking (exampleController [])
     [("", typedMessage "mycroft.skill.handler.start" [("name", .string "weather")]),
      ("", typedMessage "recognizer_loop:record_begin" [])] rfl).1 ""
     (typedMessage "speak" [("utterance", .string "sunny")]) rfl⟩

/-! ## Theorems: the last active skill -/

/-- A `mycroft.session.remove` for the reserved namespace: the whole result of
the handler in terms of the remove branch. -/
theorem gui_remove_route (model : ActiveSkillsModel) (host : String → QQmlComponent)
    (c : MycroftController) (message : String) (doc : QJsonValue)
    (htype : (doc.value "type").toString = "mycroft.session.remove")
    (hns : ((doc.value "data").value "namespace").toString = "mycroft.system.active_skills") :
    onGuiSocketMessageReceived model host c message doc
      = ((sessionRemove model c doc).1,
         .qWarning message :: .qDebug "gui message type mycroft.session.remove" ::
           (sessionRemove model c doc).2) := by
  simp [onGuiSocketMessageReceived, routeGuiMessage, htype, hns, startsWith]

/-- With the modelled `removeRows`, the remove branch keeps the last row of a
list that has one. -/
theorem sessionRemove_getLast (c : MycroftController) (doc : QJsonValue)
    (hne : c.m_activeSkillsModel ≠ []) :
    (sessionRemove specModel c doc).1.m_activeSkillsModel.getLast?
      = c.m_activeSkillsModel.getLast? := by
  unfold sessionRemove
  dsimp only
  split_ifs with g1 g2
  · rfl
  · rfl
  · show (removeRows _ _ (cascade c _ _).m_activeSkillsModel).getLast? = _
    rw [cascade_rows]
    simp only [rowCount] at g1 g2
    push_neg at g1 g2
    unfold removeRows
    have hvalid : 0 ≤ ((doc.value "data").value "position").toInt ∧
        0 ≤ ((doc.value "data").value "items_number").toInt ∧
        ((doc.value "data").value "position").toInt
          + ((doc.value "data").value "items_number").toInt
          ≤ rowCount c.m_activeSkillsModel := by
      simp only [rowCount]
      omega
    rw [if_pos hvalid, List.getLast?_append, List.getLast?_drop]
    have hlt : ¬ c.m_activeSkillsModel.length
        ≤ ((doc.value "data").value "position").toInt.toNat
          + ((doc.value "data").value "items_number").toInt.toNat := by
      omega
    rw [if_neg hlt]
    obtain ⟨a, ha⟩ := Option.isSome_iff_exists.1 (List.getLast?_isSome.2 hne)
    rw [ha]
    rfl

/-- With the modelled operations, one handled frame does not empty a non-empty
active-skill list. -/
theorem gui_step_nonempty (host : String → QQmlComponent) (c : MycroftController)
    (message : String) (doc : QJsonValue) (hne : c.m_activeSkillsModel ≠ []) :
    (onGuiSocketMessageReceived specModel host c message doc).1.m_activeSkillsModel ≠ [] := by
  unfold onGuiSocketMessageReceived
  simp only
  split_ifs with hnoise
  · exact hne
  · simp only [routeGuiMessage]
    split_ifs with h1 h2 h3 h4 h5 h6 h7
    · rw [sessionSet_rows]; exact hne
    · rw [sessionDelete_rows]; exact hne
    · rw [guiShow_rows]; exact hne
    · unfold sessionInsert
      simp only
      split_ifs with g1 g2
      · exact hne
      · exact hne
      · have hvalid : 0 ≤ ((doc.value "data").value "position").toInt ∧
            ((doc.value "data").value "position").toInt ≤ rowCount c.m_activeSkillsModel := by
          omega
        have hperm := insertSkill_perm _ ((doc.value "data").value "skill_id").toString
          c.m_activeSkillsModel hvalid
        intro hnil
        have hnil2 : insertSkill ((doc.value "data").value "position").toInt
            ((doc.value "data").value "skill_id").toString c.m_activeSkillsModel = [] := hnil
        have hlen := hperm.length_eq
        rw [hnil2] at hlen
        simp at hlen
    · intro hnil
      have hlast := sessionRemove_getLast c doc hne
      rw [hnil] at hlast
      exact hne (List.getLast?_eq_none_iff.1 hlast.symm)
    · unfold sessionMove
      simp only
      split_ifs with g1 g2 g3
      · exact hne
      · exact hne
      · exact hne
      · intro hnil
        have hnil2 : moveRows ((doc.value "data").value "from").toInt
            ((doc.value "data").value "items_number").toInt
            ((doc.value "data").value "to").toInt c.m_activeSkillsModel = [] := hnil
        have hlen := (moveRows_perm ((doc.value "data").value "from").toInt
          ((doc.value "data").value "items_number").toInt
          ((doc.value "data").value "to").toInt c.m_activeSkillsModel).length_eq
        rw [hnil2] at hlen
        exact hne (List.length_eq_zero.1 hlen.symm)
    · exact hne
    · exact hne

/-- With the modelled operations, a sequence of handled frames does not empty a
non-empty active-skill list. -/
theorem runGui_nonempty (host : String → QQmlComponent) (frames : List (String × QJsonValue)) :
    ∀ c : MycroftController, c.m_activeSkillsModel ≠ [] →
      (runGui specModel host c frames).m_activeSkillsModel ≠ [] := by
  induction frames with
  | nil => intro c hc; exact hc
  | cons f rest ih =>
    intro c hc
    exact ih _ (gui_step_nonempty host c f.1 f.2 hc)

/-- C19: a `mycroft.session.remove` for the reserved namespace that does not
satisfy `position + itemsNumber ≤ length - 1` is refused with a warning and
leaves the controller unchanged, whatever the model does; with the modelled
`removeRows` every such message keeps the last row of a non-empty list; and
from a non-empty active-skill list no sequence of presentation-channel frames
(session.insert, session.remove or any other) leads to the empty list. -/
theorem last_skill_never_removed (host : String → QQmlComponent) (c : MycroftController)
    (hne : c.m_activeSkillsModel ≠ []) :
    (∀ (model : ActiveSkillsModel) (message : String) (doc : QJsonValue)
        (position itemsNumber : Int), IsSessionRemove doc position itemsNumber →
        ¬ (position + itemsNumber ≤ rowCount c.m_activeSkillsModel - 1) →
        (onGuiSocketMessageReceived model host c message doc
            = (c, [.qWarning message, .qDebug "gui message type mycroft.session.remove",
                   .qWarning "Invalid position"]) ∨
          onGuiSocketMessageReceived model host c message doc
            = (c, [.qWarning message, .qDebug "gui message type mycroft.session.remove",
                   .qWarning "Invalid items_number"]))) ∧
    (∀ (message : String) (doc : QJsonValue) (position itemsNumber : Int),
        IsSessionRemove doc position itemsNumber →
        (onGuiSocketMessageReceived specModel host c message doc).1.m_activeSkillsModel.getLast?
          = c.m_activeSkillsModel.getLast?) ∧
    (∀ frames : List (String × QJsonValue),
        (runGui specModel host c frames).m_activeSkillsModel ≠ []) := by
  refine ⟨?_, ?_, fun frames => runGui_nonempty host frames c hne⟩
  · intro model message doc position itemsNumber hmsg hbound
    obtain ⟨htype, hns, hp, hn⟩ := hmsg
    rw [gui_remove_route model host c message doc htype hns]
    unfold sessionRemove
    simp only [hp, hn]
    by_cases g1 : position < 0 ∨ position > rowCount c.m_activeSkillsModel - 1
    · left
      rw [if_pos g1]
    · right
      have g2 : itemsNumber < 0 ∨
          itemsNumber > rowCount c.m_activeSkillsModel - position - 1 := by
        omega
      rw [if_neg g1, if_pos g2]
  · intro message doc position itemsNumber hmsg
    obtain ⟨htype, hns, _, _⟩ := hmsg
    rw [gui_remove_state specModel host c message doc htype hns]
    exact sessionRemove_getLast c doc hne

/-- Witness of C19: on the list `["weather"]`, removing one row at position 0
is refused and the list is not emptied. -/
theorem last_skill_never_removed_witness :
    (exampleController ["weather"]).m_activeSkillsModel ≠ [] ∧
    (runGui specModel noHost (exampleController ["weather"])
      [("", removeMessage "mycroft.system.active_skills" 0 1),
       ("", insertMessage "mycroft.system.active_skills" 1 "clock"),
       ("", removeMessage "mycroft.system.active_skills" 0 1),
       ("", removeMessage "mycroft.system.active_skills" 0 1)]).m_activeSkillsModel
      = ["clock"] ∧
    (runGui specModel noHost (exampleController ["weather"])
      [("", removeMessage "mycroft.system.active_skills" 0 1),
       ("", insertMessage "mycroft.system.active_skills" 1 "clock"),
       ("", removeMessage "mycroft.system.active_skills" 0 1),
       ("", removeMessage "mycroft.system.active_skills" 0 1)]).m_activeSkillsModel ≠ [] :=
  ⟨by decide, by decide,
   (last_skill_never_removed noHost (exampleController ["weather"]) (by decide)).2.2
     [("", removeMessage "mycroft.system.active_skills" 0 1),
      ("", insertMessage "mycroft.system.active_skills" 1 "clock"),
      ("", removeMessage "mycroft.system.active_skills" 0 1),
      ("", removeMessage "mycroft.system.active_skills" 0 1)]⟩

end Mycroft
